import Mathlib

/-!
Verification development for the hilbertplot-core library.

This file gives a shallow embedding of the curve-construction engine
(`QuasiSquare::Partition`, `QuasiSquare::BuildCurve`, the 40
`HilbertCurve::BuildCurve*H` builders, `HilbertCurve::joinCurve`,
`reverse`/`reflect`, `HilbertCurve::BuildDifference`) and of the plot layer
(`HilbertPlot` construction, `valueAt`, `generateImage`, `replaceData`,
`bestDimensions`, and the post-FFT normalization of `hpFourierTransform`),
together with theorems checking the specification's claims against it.

Modelling conventions:
* `hint`/`hsize` (32-bit unsigned) coordinates are modelled as `ℤ`.  All
  coordinate arithmetic performed by the library on reachable states stays
  inside `[0, 2^32)`, where unsigned arithmetic and `ℤ` arithmetic agree
  (the one transient underflow, in `reflectX`, cancels in the same
  expression, so the stored value is the `ℤ` value).
* `hfloat` (`double`) data is modelled as `ℚ`.  Every operation the claims
  touch is exact rational arithmetic (sums, differences, divisions); the
  FFT itself is external (`fftw`) and is treated as a black-box input.
* `std::sort` is modelled as `List.insertionSort`: on the duplicate-free
  keys the library sorts, every comparison sort produces the same list.
* The thread pool executes disjoint pre-computed index ranges; the write
  order is immaterial, so the parallel build is modelled by the sequential
  concatenation of the per-quadrant results in index order.
* Recursions mirror the C++ call graph; they are expressed with an explicit
  fuel argument (structural recursion) so that every definition evaluates
  by kernel reduction, and each wrapper supplies fuel that provably
  suffices (the recursion measure).
-/

namespace HilbertPlotCore

/-- Integer grid point, modelling the coordinate part of `HPoint`. -/
abbrev Pt := ℤ × ℤ

/-- Orientation of a `QuasiSquare` (`hilbertcurve.h`): `A` Up, `B` Right,
`C` Down, `D` Left. -/
inductive Orientation
  | A
  | B
  | C
  | D
deriving DecidableEq, Repr, Inhabited

/-- The 40 curve families of `HilbertCurve::CurveType`. -/
inductive CurveType
  | H0 | H1 | H2 | H3 | H4 | H5 | H6 | H7 | H8 | H9
  | H10 | H11 | H12 | H13 | H14 | H15 | H16 | H17 | H18 | H19
  | H20 | H21 | H22 | H23 | H24 | H25 | H26 | H27 | H28 | H29
  | H30 | H31 | H32 | H33 | H34 | H35 | H36 | H37 | H38 | H39
deriving DecidableEq, Repr, Inhabited

instance : Fintype Orientation :=
  ⟨⟨{.A, .B, .C, .D}, by decide⟩, fun x => by cases x <;> decide⟩

instance : Fintype CurveType :=
  ⟨⟨{.H0, .H1, .H2, .H3, .H4, .H5, .H6, .H7, .H8, .H9,
     .H10, .H11, .H12, .H13, .H14, .H15, .H16, .H17, .H18, .H19,
     .H20, .H21, .H22, .H23, .H24, .H25, .H26, .H27, .H28, .H29,
     .H30, .H31, .H32, .H33, .H34, .H35, .H36, .H37, .H38, .H39}, by decide⟩,
   fun x => by cases x <;> decide⟩

/-- A `QuasiSquare`: an `n × m` region (`n` rows = height, `m` columns =
width) with origin `coord` and orientation `oABCD`
(`hilbertcurve.h`, fields of class `QuasiSquare`). -/
structure QS where
  n : Nat
  m : Nat
  coord : Pt
  oABCD : Orientation
deriving DecidableEq, Repr

/-- Halving of `(n, m)` with the parity correction of
`QuasiSquare::Partition` (`hilbertcurve.cpp:87-102`): start from
`n1 = n/2`, `n2 = n-n1`, `m1 = m/2`, `m2 = m-m1`; for orientations `A`/`B`
swap the `n` halves when `n1` is odd and the `m` halves when `m1` is odd;
for `C`/`D` do the same when `n2`, resp. `m2`, is odd.
Returns `(n1, n2, m1, m2)` after the correction. -/
def partDims (n m : Nat) (o : Orientation) : Nat × Nat × Nat × Nat :=
  let n1 := n / 2
  let n2 := n - n1
  let m1 := m / 2
  let m2 := m - m1
  match o with
  | .A | .B =>
    ((if n1 % 2 = 1 then n2 else n1), (if n1 % 2 = 1 then n1 else n2),
     (if m1 % 2 = 1 then m2 else m1), (if m1 % 2 = 1 then m1 else m2))
  | .C | .D =>
    ((if n2 % 2 = 1 then n2 else n1), (if n2 % 2 = 1 then n1 else n2),
     (if m2 % 2 = 1 then m2 else m1), (if m2 % 2 = 1 then m1 else m2))

/-- `QuasiSquare::Partition` (`hilbertcurve.cpp:81-225`): the four child
quasi-squares, in the order they are pushed onto `partition_vec`. -/
def Partition (n m : Nat) (c : Pt) (o : Orientation) : QS × QS × QS × QS :=
  match partDims n m o with
  | (n1, n2, m1, m2) =>
    match o with
    | .A =>
      (⟨n1, m2, (c.1 + (m1 : ℤ), c.2), .D⟩,
       ⟨n2, m2, (c.1 + (m1 : ℤ), c.2 + (n1 : ℤ)), .A⟩,
       ⟨n2, m1, (c.1, c.2 + (n1 : ℤ)), .A⟩,
       ⟨n1, m1, (c.1, c.2), .B⟩)
    | .B =>
      (⟨n2, m1, (c.1, c.2 + (n1 : ℤ)), .C⟩,
       ⟨n2, m2, (c.1 + (m1 : ℤ), c.2 + (n1 : ℤ)), .B⟩,
       ⟨n1, m2, (c.1 + (m1 : ℤ), c.2), .B⟩,
       ⟨n1, m1, (c.1, c.2), .A⟩)
    | .C =>
      (⟨n2, m1, (c.1, c.2 + (n1 : ℤ)), .B⟩,
       ⟨n1, m1, (c.1, c.2), .C⟩,
       ⟨n1, m2, (c.1 + (m1 : ℤ), c.2), .C⟩,
       ⟨n2, m2, (c.1 + (m1 : ℤ), c.2 + (n1 : ℤ)), .D⟩)
    | .D =>
      (⟨n1, m2, (c.1 + (m1 : ℤ), c.2), .A⟩,
       ⟨n1, m1, (c.1, c.2), .D⟩,
       ⟨n2, m1, (c.1, c.2 + (n1 : ℤ)), .D⟩,
       ⟨n2, m2, (c.1 + (m1 : ℤ), c.2 + (n1 : ℤ)), .C⟩)

/-- The base cases of `QuasiSquare::BuildCurve`
(`hilbertcurve.cpp:288-404`): the explicit `1×1`, `1×2`, `2×1`, `2×2`
point writes, ordered by orientation; any degenerate region (`n = 0` or
`m = 0`) matches no case and writes nothing. -/
def qsBase : Nat → Nat → Pt → Orientation → List Pt
  | 1, 1, c, _ => [c]
  | 1, 2, c, .A | 1, 2, c, .B => [c, (c.1 + 1, c.2)]
  | 1, 2, c, .C | 1, 2, c, .D => [(c.1 + 1, c.2), c]
  | 2, 1, c, .A | 2, 1, c, .B => [c, (c.1, c.2 + 1)]
  | 2, 1, c, .C | 2, 1, c, .D => [(c.1, c.2 + 1), c]
  | 2, 2, c, .A => [c, (c.1, c.2 + 1), (c.1 + 1, c.2 + 1), (c.1 + 1, c.2)]
  | 2, 2, c, .B => [c, (c.1 + 1, c.2), (c.1 + 1, c.2 + 1), (c.1, c.2 + 1)]
  | 2, 2, c, .C => [(c.1 + 1, c.2 + 1), (c.1 + 1, c.2), c, (c.1, c.2 + 1)]
  | 2, 2, c, .D => [(c.1 + 1, c.2 + 1), (c.1, c.2 + 1), c, (c.1 + 1, c.2)]
  | _, _, _, _ => []

/-- `QuasiSquare::BuildCurve` (`hilbertcurve.cpp:230-417`), with explicit
fuel.  The recursive case partitions and then pops the four children from
the back of the vector, so they are emitted in the order `v4, v3, v2, v1`,
each child writing exactly `n·m` consecutive slots of the shared output
(the starting index is advanced by `qs.n * qs.m` after each child); this
is modelled by concatenating the child results in pop order. -/
def qsBuildF : Nat → Nat → Nat → Pt → Orientation → List Pt
  | 0, _, _, _, _ => []
  | fuel + 1, n, m, c, o =>
    if 2 < n ∨ 2 < m then
      match Partition n m c o with
      | (v1, v2, v3, v4) =>
        qsBuildF fuel v4.n v4.m v4.coord v4.oABCD ++
        qsBuildF fuel v3.n v3.m v3.coord v3.oABCD ++
        qsBuildF fuel v2.n v2.m v2.coord v2.oABCD ++
        qsBuildF fuel v1.n v1.m v1.coord v1.oABCD
    else qsBase n m c o

/-- Total wrapper for `QuasiSquare::BuildCurve`: every recursive call
strictly decreases `n + m`, so `n + m` fuel suffices. -/
def qsBuild (n m : Nat) (c : Pt) (o : Orientation) : List Pt :=
  qsBuildF (n + m) n m c o

/-- The in-place transform a builder applies to one quadrant before the
join: nothing, `reverse()`, `reflect()`, or `reflectAndReverse()`. -/
inductive Transf
  | keep
  | rev
  | refl
  | reflRev
deriving DecidableEq, Repr

/-- `HilbertCurve::reflect` (`hilbertcurve.cpp:3507-3516`) on a quadrant
with width `w`, height `h`, origin `c` and orientation `o`: for `A`/`C` it
is `reflectX` (`x ↦ m - 1 - x + 2·coord.x`, `hilbertcurve.cpp:3389-3401`),
for `B`/`D` it is `reflectY` (`y ↦ n - 1 - y + 2·coord.y`,
`hilbertcurve.cpp:3406-3417`). -/
def reflectPts (w h : Nat) (c : Pt) (o : Orientation) (l : List Pt) : List Pt :=
  match o with
  | .A | .C => l.map fun p => ((w : ℤ) - 1 - p.1 + 2 * c.1, p.2)
  | .B | .D => l.map fun p => (p.1, (h : ℤ) - 1 - p.2 + 2 * c.2)

/-- Application of a quadrant transform (`reverse` is
`hilbertcurve.cpp:3495-3498`, `reflectAndReverse` is `reflect` then
`reverse`, `hilbertcurve.cpp:3486-3490`). -/
def applyTransf (t : Transf) (w h : Nat) (c : Pt) (o : Orientation)
    (l : List Pt) : List Pt :=
  match t with
  | .keep => l
  | .rev => l.reverse
  | .refl => reflectPts w h c o l
  | .reflRev => (reflectPts w h c o l).reverse

/-- `HilbertCurve::joinCurve` (`hilbertcurve.cpp:3431-3480`): concatenate
the four quadrants (1 lower-left, 2 upper-left, 3 upper-right, 4
lower-right) in the order dictated by the parent orientation. -/
def joinCurve (o : Orientation) (q1 q2 q3 q4 : List Pt) : List Pt :=
  match o with
  | .A => q1 ++ q2 ++ q3 ++ q4
  | .B => q1 ++ q4 ++ q3 ++ q2
  | .C => q3 ++ q4 ++ q1 ++ q2
  | .D => q3 ++ q2 ++ q1 ++ q4

/-- One quadrant production entry: child curve type, child orientation,
and the transform applied to the built child. -/
abbrev BEntry := CurveType × Orientation × Transf

/-- The production table of the 39 composite builders
`HilbertCurve::BuildCurve1H` … `BuildCurve39H`
(`hilbertcurve.cpp:818-3325`).  For each `(family, orientation)` the four
entries are the `(type, orientation, transform)` of quadrants 1-4, read
off the builder's orientation `switch`, its quadrant constructor calls and
its transform calls.  The `H0` row is never consulted (`H0` is built by
`QuasiSquare::BuildCurve`). -/
def builderTable : CurveType → Orientation → BEntry × BEntry × BEntry × BEntry
  | .H1, .A => ((.H0, .D, .rev), (.H0, .D, .rev), (.H0, .B, .rev), (.H0, .B, .rev))
  | .H1, .B => ((.H0, .C, .rev), (.H0, .A, .rev), (.H0, .A, .rev), (.H0, .C, .rev))
  | .H1, .C => ((.H0, .D, .rev), (.H0, .D, .rev), (.H0, .B, .rev), (.H0, .B, .rev))
  | .H1, .D => ((.H0, .C, .rev), (.H0, .A, .rev), (.H0, .A, .rev), (.H0, .C, .rev))
  | .H2, .A => ((.H0, .C, .keep), (.H0, .A, .keep), (.H0, .A, .keep), (.H0, .C, .keep))
  | .H2, .B => ((.H0, .D, .keep), (.H0, .D, .keep), (.H0, .B, .keep), (.H0, .B, .keep))
  | .H2, .C => ((.H0, .C, .keep), (.H0, .A, .keep), (.H0, .A, .keep), (.H0, .C, .keep))
  | .H2, .D => ((.H0, .D, .keep), (.H0, .D, .keep), (.H0, .B, .keep), (.H0, .B, .keep))
  | .H3, .A => ((.H0, .C, .rev), (.H0, .D, .rev), (.H0, .B, .rev), (.H0, .C, .rev))
  | .H3, .B => ((.H0, .D, .rev), (.H0, .D, .rev), (.H0, .A, .rev), (.H0, .C, .rev))
  | .H3, .C => ((.H0, .D, .rev), (.H0, .A, .rev), (.H0, .A, .rev), (.H0, .B, .rev))
  | .H3, .D => ((.H0, .C, .rev), (.H0, .A, .rev), (.H0, .B, .rev), (.H0, .B, .rev))
  | .H4, .A => ((.H0, .B, .keep), (.H0, .A, .keep), (.H0, .A, .keep), (.H0, .C, .keep))
  | .H4, .B => ((.H0, .A, .keep), (.H0, .D, .keep), (.H0, .B, .keep), (.H0, .B, .keep))
  | .H4, .C => ((.H0, .C, .keep), (.H0, .A, .keep), (.H0, .D, .keep), (.H0, .C, .keep))
  | .H4, .D => ((.H0, .D, .keep), (.H0, .D, .keep), (.H0, .C, .keep), (.H0, .B, .keep))
  | .H5, .A => ((.H0, .C, .rev), (.H0, .D, .rev), (.H0, .B, .rev), (.H0, .B, .rev))
  | .H5, .B => ((.H0, .D, .rev), (.H0, .A, .rev), (.H0, .A, .rev), (.H0, .C, .rev))
  | .H5, .C => ((.H0, .D, .rev), (.H0, .D, .rev), (.H0, .A, .rev), (.H0, .B, .rev))
  | .H5, .D => ((.H0, .C, .rev), (.H0, .A, .rev), (.H0, .B, .rev), (.H0, .C, .rev))
  | .H6, .A => ((.H5, .C, .keep), (.H5, .A, .reflRev), (.H5, .A, .keep), (.H5, .C, .reflRev))
  | .H6, .B => ((.H5, .D, .keep), (.H5, .D, .reflRev), (.H5, .B, .keep), (.H5, .B, .reflRev))
  | .H6, .C => ((.H5, .C, .keep), (.H5, .A, .reflRev), (.H5, .A, .keep), (.H5, .C, .reflRev))
  | .H6, .D => ((.H5, .D, .keep), (.H5, .D, .reflRev), (.H5, .B, .keep), (.H5, .B, .reflRev))
  | .H7, .A => ((.H5, .C, .keep), (.H5, .A, .reflRev), (.H5, .A, .keep), (.H5, .D, .keep))
  | .H7, .B => ((.H5, .A, .reflRev), (.H5, .D, .reflRev), (.H5, .B, .keep), (.H5, .B, .reflRev))
  | .H7, .C => ((.H5, .C, .keep), (.H5, .B, .keep), (.H5, .A, .keep), (.H5, .C, .reflRev))
  | .H7, .D => ((.H5, .D, .keep), (.H5, .D, .reflRev), (.H5, .C, .reflRev), (.H5, .B, .reflRev))
  | .H8, .A => ((.H5, .B, .reflRev), (.H5, .A, .reflRev), (.H5, .A, .keep), (.H5, .D, .keep))
  | .H8, .B => ((.H5, .A, .reflRev), (.H5, .C, .keep), (.H5, .B, .keep), (.H5, .B, .reflRev))
  | .H8, .C => ((.H5, .C, .keep), (.H5, .B, .keep), (.H5, .D, .reflRev), (.H5, .C, .reflRev))
  | .H8, .D => ((.H5, .D, .keep), (.H5, .D, .reflRev), (.H5, .C, .reflRev), (.H5, .A, .keep))
  | .H9, .A => ((.H5, .D, .rev), (.H5, .D, .refl), (.H5, .B, .rev), (.H5, .B, .refl))
  | .H9, .B => ((.H5, .C, .rev), (.H5, .A, .refl), (.H5, .A, .rev), (.H5, .C, .refl))
  | .H9, .C => ((.H5, .D, .rev), (.H5, .D, .refl), (.H5, .B, .rev), (.H5, .B, .refl))
  | .H9, .D => ((.H5, .C, .rev), (.H5, .A, .refl), (.H5, .A, .rev), (.H5, .C, .refl))
  | .H10, .A => ((.H5, .C, .refl), (.H5, .D, .refl), (.H5, .B, .rev), (.H5, .C, .rev))
  | .H10, .B => ((.H5, .D, .refl), (.H5, .D, .rev), (.H5, .A, .rev), (.H5, .C, .refl))
  | .H10, .C => ((.H5, .D, .rev), (.H5, .A, .rev), (.H5, .A, .refl), (.H5, .B, .refl))
  | .H10, .D => ((.H5, .C, .rev), (.H5, .A, .refl), (.H5, .B, .refl), (.H5, .B, .rev))
  | .H11, .A => ((.H5, .C, .refl), (.H5, .D, .refl), (.H5, .B, .rev), (.H5, .B, .refl))
  | .H11, .B => ((.H5, .C, .rev), (.H5, .D, .rev), (.H5, .A, .rev), (.H5, .C, .refl))
  | .H11, .C => ((.H5, .D, .rev), (.H5, .D, .refl), (.H5, .A, .refl), (.H5, .B, .refl))
  | .H11, .D => ((.H5, .C, .rev), (.H5, .A, .refl), (.H5, .A, .rev), (.H5, .B, .rev))
  | .H12, .A => ((.H3, .B, .keep), (.H5, .A, .reflRev), (.H5, .A, .keep), (.H3, .D, .keep))
  | .H12, .B => ((.H3, .A, .keep), (.H3, .C, .keep), (.H5, .B, .keep), (.H5, .B, .reflRev))
  | .H12, .C => ((.H5, .C, .keep), (.H3, .B, .keep), (.H3, .D, .keep), (.H5, .C, .reflRev))
  | .H12, .D => ((.H5, .D, .keep), (.H5, .D, .reflRev), (.H3, .C, .keep), (.H3, .A, .keep))
  | .H13, .A => ((.H3, .D, .rev), (.H5, .D, .refl), (.H5, .B, .rev), (.H3, .B, .rev))
  | .H13, .B => ((.H3, .C, .rev), (.H3, .A, .rev), (.H5, .A, .rev), (.H5, .C, .refl))
  | .H13, .C => ((.H5, .D, .rev), (.H3, .D, .rev), (.H3, .B, .rev), (.H5, .B, .refl))
  | .H13, .D => ((.H5, .C, .rev), (.H5, .A, .refl), (.H3, .A, .rev), (.H3, .C, .rev))
  | .H14, .A => ((.H3, .B, .keep), (.H5, .A, .reflRev), (.H5, .A, .keep), (.H5, .D, .keep))
  | .H14, .B => ((.H5, .A, .reflRev), (.H3, .C, .keep), (.H5, .B, .keep), (.H5, .B, .reflRev))
  | .H14, .C => ((.H5, .C, .keep), (.H5, .B, .keep), (.H3, .D, .keep), (.H5, .C, .reflRev))
  | .H14, .D => ((.H5, .D, .keep), (.H5, .D, .reflRev), (.H5, .C, .reflRev), (.H3, .A, .keep))
  | .H15, .A => ((.H3, .D, .rev), (.H5, .D, .refl), (.H5, .B, .rev), (.H5, .C, .rev))
  | .H15, .B => ((.H5, .D, .refl), (.H3, .A, .rev), (.H5, .A, .rev), (.H5, .C, .refl))
  | .H15, .C => ((.H5, .D, .rev), (.H5, .A, .rev), (.H3, .B, .rev), (.H5, .B, .refl))
  | .H15, .D => ((.H5, .C, .rev), (.H5, .A, .refl), (.H5, .B, .refl), (.H3, .C, .rev))
  | .H16, .A => ((.H3, .B, .keep), (.H5, .A, .reflRev), (.H5, .A, .keep), (.H5, .C, .reflRev))
  | .H16, .B => ((.H5, .D, .keep), (.H3, .C, .keep), (.H5, .B, .keep), (.H5, .B, .reflRev))
  | .H16, .C => ((.H5, .C, .keep), (.H5, .A, .reflRev), (.H3, .D, .keep), (.H5, .C, .reflRev))
  | .H16, .D => ((.H5, .D, .keep), (.H5, .D, .reflRev), (.H5, .B, .keep), (.H3, .A, .keep))
  | .H17, .A => ((.H3, .D, .rev), (.H5, .D, .refl), (.H5, .B, .rev), (.H5, .B, .refl))
  | .H17, .B => ((.H5, .C, .rev), (.H3, .A, .rev), (.H5, .A, .rev), (.H5, .C, .refl))
  | .H17, .C => ((.H5, .D, .rev), (.H5, .D, .refl), (.H3, .B, .rev), (.H5, .B, .refl))
  | .H17, .D => ((.H5, .C, .rev), (.H5, .A, .refl), (.H5, .A, .rev), (.H3, .C, .rev))
  | .H18, .A => ((.H4, .B, .reflRev), (.H0, .A, .keep), (.H0, .A, .keep), (.H4, .D, .keep))
  | .H18, .B => ((.H4, .A, .reflRev), (.H4, .C, .keep), (.H0, .B, .keep), (.H0, .B, .keep))
  | .H18, .C => ((.H0, .C, .keep), (.H4, .B, .keep), (.H4, .D, .reflRev), (.H0, .C, .keep))
  | .H18, .D => ((.H0, .D, .keep), (.H0, .D, .keep), (.H4, .C, .reflRev), (.H4, .A, .keep))
  | .H19, .A => ((.H4, .C, .reflRev), (.H0, .A, .keep), (.H0, .A, .keep), (.H4, .C, .keep))
  | .H19, .B => ((.H4, .D, .reflRev), (.H4, .D, .keep), (.H0, .B, .keep), (.H0, .B, .keep))
  | .H19, .C => ((.H0, .C, .keep), (.H4, .A, .keep), (.H4, .A, .reflRev), (.H0, .C, .keep))
  | .H19, .D => ((.H0, .D, .keep), (.H0, .D, .keep), (.H4, .B, .reflRev), (.H4, .B, .keep))
  | .H20, .A => ((.H4, .B, .reflRev), (.H0, .A, .keep), (.H0, .A, .keep), (.H4, .C, .keep))
  | .H20, .B => ((.H4, .D, .reflRev), (.H4, .C, .keep), (.H0, .B, .keep), (.H0, .B, .keep))
  | .H20, .C => ((.H0, .C, .keep), (.H4, .A, .keep), (.H4, .D, .reflRev), (.H0, .C, .keep))
  | .H20, .D => ((.H0, .D, .keep), (.H0, .D, .keep), (.H4, .B, .reflRev), (.H4, .A, .keep))
  | .H21, .A => ((.H4, .C, .rev), (.H0, .D, .rev), (.H0, .B, .rev), (.H4, .C, .refl))
  | .H21, .B => ((.H4, .D, .rev), (.H4, .D, .refl), (.H0, .A, .rev), (.H0, .C, .rev))
  | .H21, .C => ((.H0, .D, .rev), (.H4, .A, .refl), (.H4, .A, .rev), (.H0, .B, .rev))
  | .H21, .D => ((.H0, .C, .rev), (.H0, .A, .rev), (.H4, .B, .rev), (.H4, .B, .refl))
  | .H22, .A => ((.H4, .D, .rev), (.H0, .D, .rev), (.H0, .B, .rev), (.H4, .B, .refl))
  | .H22, .B => ((.H4, .C, .rev), (.H4, .A, .refl), (.H0, .A, .rev), (.H0, .C, .rev))
  | .H22, .C => ((.H0, .D, .rev), (.H4, .D, .refl), (.H4, .B, .rev), (.H0, .B, .rev))
  | .H22, .D => ((.H0, .C, .rev), (.H0, .A, .rev), (.H4, .A, .rev), (.H4, .C, .refl))
  | .H23, .A => ((.H4, .D, .rev), (.H0, .D, .rev), (.H0, .B, .rev), (.H4, .C, .refl))
  | .H23, .B => ((.H4, .D, .rev), (.H4, .A, .refl), (.H0, .A, .rev), (.H0, .C, .rev))
  | .H23, .C => ((.H0, .D, .rev), (.H4, .A, .refl), (.H4, .B, .rev), (.H0, .B, .rev))
  | .H23, .D => ((.H0, .C, .rev), (.H0, .A, .rev), (.H4, .B, .rev), (.H4, .C, .refl))
  | .H24, .A => ((.H0, .C, .rev), (.H0, .D, .rev), (.H0, .B, .rev), (.H4, .B, .refl))
  | .H24, .B => ((.H4, .C, .rev), (.H0, .D, .rev), (.H0, .A, .rev), (.H0, .C, .rev))
  | .H24, .C => ((.H0, .D, .rev), (.H4, .D, .refl), (.H0, .A, .rev), (.H0, .B, .rev))
  | .H24, .D => ((.H0, .C, .rev), (.H0, .A, .rev), (.H4, .A, .rev), (.H0, .B, .rev))
  | .H25, .A => ((.H0, .D, .rev), (.H0, .D, .rev), (.H0, .B, .rev), (.H4, .C, .refl))
  | .H25, .B => ((.H4, .D, .rev), (.H0, .A, .rev), (.H0, .A, .rev), (.H0, .C, .rev))
  | .H25, .C => ((.H0, .D, .rev), (.H4, .A, .refl), (.H0, .B, .rev), (.H0, .B, .rev))
  | .H25, .D => ((.H0, .C, .rev), (.H0, .A, .rev), (.H4, .B, .rev), (.H0, .C, .rev))
  | .H26, .A => ((.H0, .D, .rev), (.H0, .D, .rev), (.H0, .B, .rev), (.H4, .B, .refl))
  | .H26, .B => ((.H4, .C, .rev), (.H0, .A, .rev), (.H0, .A, .rev), (.H0, .C, .rev))
  | .H26, .C => ((.H0, .D, .rev), (.H4, .D, .refl), (.H0, .B, .rev), (.H0, .B, .rev))
  | .H26, .D => ((.H0, .C, .rev), (.H0, .A, .rev), (.H4, .A, .rev), (.H0, .C, .rev))
  | .H27, .A => ((.H0, .C, .keep), (.H0, .A, .keep), (.H0, .A, .keep), (.H4, .C, .keep))
  | .H27, .B => ((.H4, .D, .reflRev), (.H0, .D, .keep), (.H0, .B, .keep), (.H0, .B, .keep))
  | .H27, .C => ((.H0, .C, .keep), (.H4, .A, .keep), (.H0, .A, .keep), (.H0, .C, .keep))
  | .H27, .D => ((.H0, .D, .keep), (.H0, .D, .keep), (.H4, .B, .reflRev), (.H0, .B, .keep))
  | .H28, .A => ((.H0, .C, .keep), (.H0, .A, .keep), (.H0, .A, .keep), (.H4, .D, .keep))
  | .H28, .B => ((.H4, .A, .reflRev), (.H0, .D, .keep), (.H0, .B, .keep), (.H0, .B, .keep))
  | .H28, .C => ((.H0, .C, .keep), (.H4, .B, .keep), (.H0, .A, .keep), (.H0, .C, .keep))
  | .H28, .D => ((.H0, .D, .keep), (.H0, .D, .keep), (.H4, .C, .reflRev), (.H0, .B, .keep))
  | .H29, .A => ((.H0, .B, .keep), (.H0, .A, .keep), (.H0, .A, .keep), (.H4, .C, .keep))
  | .H29, .B => ((.H4, .D, .reflRev), (.H0, .D, .keep), (.H0, .B, .keep), (.H0, .B, .keep))
  | .H29, .C => ((.H0, .C, .keep), (.H4, .A, .keep), (.H0, .D, .keep), (.H0, .C, .keep))
  | .H29, .D => ((.H0, .D, .keep), (.H0, .D, .keep), (.H4, .B, .reflRev), (.H0, .A, .keep))
  | .H30, .A => ((.H0, .B, .keep), (.H0, .A, .keep), (.H0, .A, .keep), (.H4, .D, .keep))
  | .H30, .B => ((.H4, .A, .reflRev), (.H0, .C, .keep), (.H0, .B, .keep), (.H0, .B, .keep))
  | .H30, .C => ((.H0, .C, .keep), (.H4, .B, .keep), (.H0, .D, .keep), (.H0, .C, .keep))
  | .H30, .D => ((.H0, .D, .keep), (.H0, .D, .keep), (.H4, .C, .reflRev), (.H0, .A, .keep))
  | .H31, .A => ((.H0, .C, .rev), (.H0, .D, .rev), (.H0, .B, .rev), (.H4, .C, .refl))
  | .H31, .B => ((.H4, .D, .rev), (.H0, .D, .rev), (.H0, .A, .rev), (.H0, .C, .rev))
  | .H31, .C => ((.H0, .D, .rev), (.H4, .A, .refl), (.H0, .A, .rev), (.H0, .B, .rev))
  | .H31, .D => ((.H0, .C, .rev), (.H0, .A, .rev), (.H4, .B, .rev), (.H0, .B, .rev))
  | .H32, .A => ((.H1, .C, .keep), (.H5, .A, .reflRev), (.H5, .A, .keep), (.H1, .C, .keep))
  | .H32, .B => ((.H1, .D, .keep), (.H1, .D, .keep), (.H5, .B, .keep), (.H5, .B, .reflRev))
  | .H32, .C => ((.H5, .C, .keep), (.H1, .A, .keep), (.H1, .A, .keep), (.H5, .C, .reflRev))
  | .H32, .D => ((.H5, .D, .keep), (.H5, .D, .reflRev), (.H1, .B, .keep), (.H1, .B, .keep))
  | .H33, .A => ((.H1, .C, .rev), (.H5, .D, .refl), (.H5, .B, .rev), (.H1, .C, .rev))
  | .H33, .B => ((.H1, .D, .rev), (.H1, .D, .rev), (.H5, .A, .rev), (.H5, .C, .refl))
  | .H33, .C => ((.H5, .D, .rev), (.H1, .A, .rev), (.H1, .A, .rev), (.H5, .B, .refl))
  | .H33, .D => ((.H5, .C, .rev), (.H5, .A, .refl), (.H1, .B, .rev), (.H1, .B, .rev))
  | .H34, .A => ((.H5, .C, .keep), (.H5, .A, .reflRev), (.H5, .A, .keep), (.H1, .C, .keep))
  | .H34, .B => ((.H1, .D, .keep), (.H5, .D, .reflRev), (.H5, .B, .keep), (.H5, .B, .reflRev))
  | .H34, .C => ((.H5, .C, .keep), (.H1, .A, .keep), (.H5, .A, .keep), (.H5, .C, .reflRev))
  | .H34, .D => ((.H5, .D, .keep), (.H5, .D, .reflRev), (.H1, .B, .keep), (.H5, .B, .reflRev))
  | .H35, .A => ((.H5, .D, .rev), (.H5, .D, .refl), (.H5, .B, .rev), (.H1, .C, .rev))
  | .H35, .B => ((.H1, .D, .rev), (.H5, .A, .refl), (.H5, .A, .rev), (.H5, .C, .refl))
  | .H35, .C => ((.H5, .D, .rev), (.H1, .A, .rev), (.H5, .B, .rev), (.H5, .B, .refl))
  | .H35, .D => ((.H5, .C, .rev), (.H5, .A, .refl), (.H1, .B, .rev), (.H5, .C, .refl))
  | .H36, .A => ((.H5, .B, .reflRev), (.H5, .A, .reflRev), (.H5, .A, .keep), (.H1, .C, .keep))
  | .H36, .B => ((.H1, .D, .keep), (.H5, .C, .keep), (.H5, .B, .keep), (.H5, .B, .reflRev))
  | .H36, .C => ((.H5, .C, .keep), (.H1, .A, .keep), (.H5, .D, .reflRev), (.H5, .C, .reflRev))
  | .H36, .D => ((.H5, .D, .keep), (.H5, .D, .reflRev), (.H1, .B, .keep), (.H5, .A, .keep))
  | .H37, .A => ((.H5, .C, .refl), (.H5, .D, .refl), (.H5, .B, .rev), (.H1, .C, .rev))
  | .H37, .B => ((.H1, .D, .rev), (.H5, .D, .rev), (.H5, .A, .rev), (.H5, .C, .refl))
  | .H37, .C => ((.H5, .D, .rev), (.H1, .A, .rev), (.H5, .A, .refl), (.H5, .B, .refl))
  | .H37, .D => ((.H5, .C, .rev), (.H5, .A, .refl), (.H1, .B, .rev), (.H5, .B, .rev))
  | .H38, .A => ((.H3, .B, .keep), (.H5, .A, .reflRev), (.H5, .A, .keep), (.H1, .C, .keep))
  | .H38, .B => ((.H1, .D, .keep), (.H3, .C, .keep), (.H5, .B, .keep), (.H5, .B, .reflRev))
  | .H38, .C => ((.H5, .C, .keep), (.H1, .A, .keep), (.H3, .D, .keep), (.H5, .C, .reflRev))
  | .H38, .D => ((.H5, .D, .keep), (.H5, .D, .reflRev), (.H1, .B, .keep), (.H3, .A, .keep))
  | .H39, .A => ((.H3, .D, .rev), (.H5, .D, .refl), (.H5, .B, .rev), (.H1, .C, .rev))
  | .H39, .B => ((.H1, .D, .rev), (.H3, .A, .rev), (.H5, .A, .rev), (.H5, .C, .refl))
  | .H39, .C => ((.H5, .D, .rev), (.H1, .A, .rev), (.H3, .B, .rev), (.H5, .B, .refl))
  | .H39, .D => ((.H5, .C, .rev), (.H5, .A, .refl), (.H1, .B, .rev), (.H3, .C, .rev))
  | .H0, _ => ((.H0, .A, .keep), (.H0, .A, .keep), (.H0, .A, .keep), (.H0, .A, .keep))

/-- Recursion rank of a curve type: `H0` recurses only through
`QuasiSquare`; `H1`, `H3`, `H4`, `H5` build `H0` quadrants; every other
family builds quadrants of types among `H0`, `H1`, `H3`, `H4`, `H5`. -/
def rankT : CurveType → Nat
  | .H0 => 0
  | .H1 | .H3 | .H4 | .H5 => 1
  | _ => 2

/-- `HilbertCurve::Build` (`hilbertcurve.cpp:580-705`) together with the
39 composite builders, with explicit fuel.  `H0` dispatches to
`QuasiSquare::BuildCurve` on the (height, width) region
(`BuildCurveH0`, `hilbertcurve.cpp:802-817`).  A composite family splits
`w2 = w/2`, `w1 = w - w2`, `h2 = h/2`, `h1 = h - h2`, builds quadrant 1 at
`c` (size `w1×h1`), quadrant 2 at `c + (0, h1)` (size `w1×h2`), quadrant 3
at `c + (w1, h1)` (size `w2×h2`), quadrant 4 at `c + (w1, 0)` (size
`w2×h1`), each with the type/orientation of its table entry and built with
`differenceCurve = false` (the header default), applies the per-quadrant
transforms, and joins by `joinCurve`.  Here `w1 = w - w/2`, `w2 = w/2`,
`h1 = h - h/2`, `h2 = h/2` are written inline. -/
def hcBuildF : Nat → CurveType → Nat → Nat → Pt → Orientation → List Pt
  | 0, _, _, _, _, _ => []
  | fuel + 1, t, w, h, c, o =>
    if t = CurveType.H0 then qsBuild h w c o
    else
      joinCurve o
        (applyTransf (builderTable t o).1.2.2 (w - w / 2) (h - h / 2) c
          (builderTable t o).1.2.1
          (hcBuildF fuel (builderTable t o).1.1 (w - w / 2) (h - h / 2) c
            (builderTable t o).1.2.1))
        (applyTransf (builderTable t o).2.1.2.2 (w - w / 2) (h / 2)
          (c.1, c.2 + ((h - h / 2 : Nat) : ℤ)) (builderTable t o).2.1.2.1
          (hcBuildF fuel (builderTable t o).2.1.1 (w - w / 2) (h / 2)
            (c.1, c.2 + ((h - h / 2 : Nat) : ℤ)) (builderTable t o).2.1.2.1))
        (applyTransf (builderTable t o).2.2.1.2.2 (w / 2) (h / 2)
          (c.1 + ((w - w / 2 : Nat) : ℤ), c.2 + ((h - h / 2 : Nat) : ℤ))
          (builderTable t o).2.2.1.2.1
          (hcBuildF fuel (builderTable t o).2.2.1.1 (w / 2) (h / 2)
            (c.1 + ((w - w / 2 : Nat) : ℤ), c.2 + ((h - h / 2 : Nat) : ℤ))
            (builderTable t o).2.2.1.2.1))
        (applyTransf (builderTable t o).2.2.2.2.2 (w / 2) (h - h / 2)
          (c.1 + ((w - w / 2 : Nat) : ℤ), c.2) (builderTable t o).2.2.2.2.1
          (hcBuildF fuel (builderTable t o).2.2.2.1 (w / 2) (h - h / 2)
            (c.1 + ((w - w / 2 : Nat) : ℤ), c.2) (builderTable t o).2.2.2.2.1))

/-- Total wrapper: every recursive call strictly decreases
`3·(w + h) + rankT t`, so that much fuel suffices. -/
def hcBuild (t : CurveType) (w h : Nat) (c : Pt) (o : Orientation) : List Pt :=
  hcBuildF (3 * (w + h) + rankT t + 1) t w h c o

/-- An `HPoint` (`hpoint.h`): coordinates, discontinuity `difference`
value and traversal `index`. -/
structure HP where
  x : ℤ
  y : ℤ
  difference : ℚ
  index : Nat
deriving DecidableEq, Repr

/-- The raster comparison `operator<` of `HPoint` (`hpoint.cpp:469-473`,
via `operator>`): `p < q` iff `p.y < q.y`, or `p.y = q.y` and `p.x ≤ q.x`
(the source comparator is reflexive, i.e. a raster "less or equal"). -/
def rasterLE (p q : HP) : Prop :=
  p.y < q.y ∨ (p.y = q.y ∧ p.x ≤ q.x)

instance : DecidableRel rasterLE := fun p q =>
  inferInstanceAs (Decidable (p.y < q.y ∨ (p.y = q.y ∧ p.x ≤ q.x)))

/-- Comparison by traversal index, the reflexive closure of `indexCmp`
(`hpoint.cpp:345-348`); on the distinct indices being sorted the two
induce the same sorted list. -/
def indexLE (p q : HP) : Prop := p.index ≤ q.index

instance : DecidableRel indexLE := fun p q =>
  inferInstanceAs (Decidable (p.index ≤ q.index))

/-- Default `HPoint`, used only to make raster indexing total (the C++
accesses are always in bounds on a `width·height` curve). -/
def hpDefault : HP := ⟨0, 0, 0, 0⟩

/-- The per-cell discontinuity score of `HilbertCurve::BuildDifference`
(`hilbertcurve.cpp:737-792`): on the raster-sorted curve, cell `(i, j)`
sums `|index(i,j) - index(neighbor)|` over the up-to-8 raster neighbours
that exist (right, left, up, down and the four diagonals, each guarded by
a bounds check) and divides by the number of neighbours counted. -/
def cellScore (sorted : List HP) (w h i j : Nat) : ℚ :=
  let idxAt : Nat → Nat → ℚ := fun a b => ((sorted.getD (b * w + a) hpDefault).index : ℚ)
  let p := idxAt i j
  let dif :=
    (if i < w - 1 then |p - idxAt (i + 1) j| else 0) +
    (if 0 < i then |p - idxAt (i - 1) j| else 0) +
    (if j < h - 1 then |p - idxAt i (j + 1)| else 0) +
    (if 0 < j then |p - idxAt i (j - 1)| else 0) +
    (if i < w - 1 ∧ j < h - 1 then |p - idxAt (i + 1) (j + 1)| else 0) +
    (if 0 < i ∧ j < h - 1 then |p - idxAt (i - 1) (j + 1)| else 0) +
    (if i < w - 1 ∧ 0 < j then |p - idxAt (i + 1) (j - 1)| else 0) +
    (if 0 < i ∧ 0 < j then |p - idxAt (i - 1) (j - 1)| else 0)
  let count : ℚ :=
    (if i < w - 1 then 1 else 0) + (if 0 < i then 1 else 0) +
    (if j < h - 1 then 1 else 0) + (if 0 < j then 1 else 0) +
    (if i < w - 1 ∧ j < h - 1 then 1 else 0) + (if 0 < i ∧ j < h - 1 then 1 else 0) +
    (if i < w - 1 ∧ 0 < j then 1 else 0) + (if 0 < i ∧ 0 < j then 1 else 0)
  dif / count

/-- One step of the incremental (Welford-style) mean update of
`BuildDifference` (`hilbertcurve.cpp:794-795`): `delta = val - mean;
mean = mean + delta / ++k`. -/
def welfordStep (acc : ℚ × Nat) (v : ℚ) : ℚ × Nat :=
  (acc.1 + (v - acc.1) / ((acc.2 + 1 : Nat) : ℚ), acc.2 + 1)

/-- `HilbertCurve::BuildDifference` (`hilbertcurve.cpp:709-800`): assign
each point its traversal position as `index`; sort into raster order
(`std::sort` with `HPoint::operator<`); write each raster cell's
discontinuity score into its `difference` field while folding the running
mean; finally sort back by `index` (`std::sort` with `indexCmp`).
Returns the final point list and the mean. -/
def buildDifference (w h : Nat) (l : List Pt) : List HP × ℚ :=
  let indexed := l.enum.map fun pr => HP.mk pr.2.1 pr.2.2 0 pr.1
  let sorted := indexed.insertionSort rasterLE
  let scored := sorted.enum.map fun pr =>
    if pr.1 < h * w then
      { pr.2 with difference := cellScore sorted w h (pr.1 % w) (pr.1 / w) }
    else pr.2
  let mean := (((List.range (h * w)).map fun k =>
    cellScore sorted w h (k % w) (k / w)).foldl welfordStep (0, 0)).1
  (scored.insertionSort indexLE, mean)

/-- `HilbertCurve::reflectY` (`hilbertcurve.cpp:3406-3417`) on the final
point list: `y ↦ n - 1 - y + 2·coord.y`. -/
def reflectYHP (n : Nat) (cy : ℤ) (l : List HP) : List HP :=
  l.map fun p => { p with y := (n : ℤ) - 1 - p.y + 2 * cy }

/-- A built `HilbertCurve` object: dimensions (`m` = width, `n` = height),
type, origin, orientation, the point sequence and the mean discontinuity. -/
structure Curve where
  width : Nat
  height : Nat
  ctype : CurveType
  coord : Pt
  oABCD : Orientation
  points : List HP
  meanDifference : ℚ
deriving Repr

/-- The general constructor `HilbertCurve::HilbertCurve`
(`hilbertcurve.cpp:3353-3364`): run `Build()`; when `differenceCurve` is
set, run `BuildDifference()` and then `reflectY()`.  Without the
difference pass the points keep the zero `index`/`difference` fields they
are built with, and `m_mean_difference` is modelled as `0`. -/
def mkHilbertCurve (w h : Nat) (t : CurveType) (c : Pt) (o : Orientation)
    (differenceCurve : Bool) : Curve :=
  let pts := hcBuild t w h c o
  if differenceCurve then
    let d := buildDifference w h pts
    ⟨w, h, t, c, o, reflectYHP h c.2 d.1, d.2⟩
  else
    ⟨w, h, t, c, o, pts.map fun p => HP.mk p.1 p.2 0 0, 0⟩

/-- `HilbertCurve::reverse` (`hilbertcurve.cpp:3495-3498`): reverse the
point sequence in place (`reverse_parallel` = `std::reverse`). -/
def Curve.reverse (cu : Curve) : Curve :=
  { cu with points := cu.points.reverse }

/-- `HilbertCurve::reflect` (`hilbertcurve.cpp:3507-3516`) on a whole
curve object: `reflectX` for orientations `A`/`C`, `reflectY` for
`B`/`D`, using the curve's own dimensions and origin. -/
def Curve.reflect (cu : Curve) : Curve :=
  match cu.oABCD with
  | .A | .C =>
    { cu with points := cu.points.map fun p =>
        { p with x := (cu.width : ℤ) - 1 - p.x + 2 * cu.coord.1 } }
  | .B | .D =>
    { cu with points := cu.points.map fun p =>
        { p with y := (cu.height : ℤ) - 1 - p.y + 2 * cu.coord.2 } }

/-- Exceptions of `hilbertdefines.h`. -/
inductive HErr
  | badAlloc
  | badOrientation
  | badOperation
  | indexOutOfRange
  | zeroDivision
  | badSize
deriving DecidableEq, Repr

/-- First-element minimum of a `DataSequence`
(`DataSequence::min`, `datasequence.cpp:938-941`, = `*min_element`). -/
def listMin : List ℚ → ℚ
  | [] => 0
  | x :: xs => xs.foldl min x

/-- First-element maximum of a `DataSequence`
(`DataSequence::max`, `datasequence.cpp:931-934`, = `*max_element`). -/
def listMax : List ℚ → ℚ
  | [] => 0
  | x :: xs => xs.foldl max x

/-- `HilbertPlot::bestDimensions` (`hilbertplot.cpp`): if `lenght` is a
perfect square return `(√L, √L)`; otherwise with `f = ⌊√L⌋`, `c = ⌈√L⌉`
compare `min1 = |L - f·f|`, `min2 = |L - c·c|`, `min3 = |L - f·c|` and
return `(f, f)`, `(c, c)` or `(c, f)` by the source's comparison chain.
The C++ computes `√L` in `double`; for `hsize` (32-bit) arguments the
truncated floating-point square root equals `Nat.sqrt`. -/
def bestDimensions (lenght : Nat) : Nat × Nat :=
  let sq := Nat.sqrt lenght
  if sq * sq = lenght then (sq, sq)
  else
    let f := sq
    let c := sq + 1
    let min1 := ((lenght : ℤ) - (f * f : Nat)).natAbs
    let min2 := ((lenght : ℤ) - (c * c : Nat)).natAbs
    let min3 := ((lenght : ℤ) - (f * c : Nat)).natAbs
    if min1 < min2 then
      if min1 < min3 then (f, f) else (c, f)
    else if min2 < min3 then (c, c) else (c, f)

/-- A `HilbertPlot` object: the underlying curve (public base class), the
data vector and the cached minimum/maximum.  The `m_plotToCurve` lookup
table is represented by the function `plotToCurve` below. -/
structure HilbertPlot where
  curve : Curve
  m_data : List ℚ
  m_min : ℚ
  m_max : ℚ
deriving Repr

def HilbertPlot.width (pl : HilbertPlot) : Nat := pl.curve.width

def HilbertPlot.height (pl : HilbertPlot) : Nat := pl.curve.height

/-- The `m_plotToCurve` lookup: the table is zero-initialised and then
`m_plotToCurve[p.x][p.y] = p.index` is written for every curve point
(`hilbertplot.cpp:58-62`); the resulting entry is the last written index
for the cell, or `0` if no point has these coordinates. -/
def plotToCurve (pl : HilbertPlot) (x y : Nat) : Nat :=
  pl.curve.points.foldl
    (fun acc p => if p.x = (x : ℤ) ∧ p.y = (y : ℤ) then p.index else acc) 0

/-- The general `HilbertPlot` constructor (`hilbertplot.cpp:46-73`):
`constructCurve` replaces zero dimensions by `bestDimensions(data.size())`
and builds the curve with `differenceCurve = true`; the data is padded
with zeros or truncated to `width·height`; `m_min`/`m_max` are set from
the stored data (or `0` when it is empty). -/
def mkHilbertPlot (data : List ℚ) (width height : Nat) (t : CurveType) :
    HilbertPlot :=
  let dims := if width = 0 ∨ height = 0 then bestDimensions data.length
              else (width, height)
  let w := dims.1
  let h := dims.2
  let curve := mkHilbertCurve w h t (0, 0) .A true
  let d := data.take (w * h) ++ List.replicate (w * h - data.length) 0
  ⟨curve, d, if 0 < d.length then listMin d else 0,
             if 0 < d.length then listMax d else 0⟩

/-- `HilbertPlot::valueAt(index)` (`hilbertplot.cpp:123-128`): throws
`HilbertIndexOutOfRange` iff `index ≥ m_data.size()`, else returns the
stored value. -/
def valueAt (pl : HilbertPlot) (index : Nat) : Except HErr ℚ :=
  if pl.m_data.length ≤ index then .error .indexOutOfRange
  else .ok (pl.m_data.getD index 0)

/-- `HilbertPlot::valueAt(x, y)` (`hilbertplot.cpp:134-142`): bounds-check
`x`/`y` against the plot dimensions, route through the lookup table, check
the resulting index, and return the stored value. -/
def valueAtXY (pl : HilbertPlot) (x y : Nat) : Except HErr ℚ :=
  if pl.width ≤ x ∨ pl.height ≤ y then .error .indexOutOfRange
  else
    let index := plotToCurve pl x y
    if pl.m_data.length ≤ index then .error .indexOutOfRange
    else .ok (pl.m_data.getD index 0)

/-- `HilbertPlot::valueNormalizedAt(index)` (`hilbertplot.cpp:144-149`):
`(value - min) * (min = max ? 0 : 1/(max - min))`. -/
def valueNormalizedAt (pl : HilbertPlot) (index : Nat) : Except HErr ℚ :=
  if pl.m_data.length ≤ index then .error .indexOutOfRange
  else .ok ((pl.m_data.getD index 0 - pl.m_min) *
            (if pl.m_min = pl.m_max then 0 else 1 / (pl.m_max - pl.m_min)))

/-- `HilbertPlot::valueNormalizedAt(x, y)` (`hilbertplot.cpp:151-157`). -/
def valueNormalizedAtXY (pl : HilbertPlot) (x y : Nat) : Except HErr ℚ :=
  if pl.width ≤ x ∨ pl.height ≤ y then .error .indexOutOfRange
  else valueNormalizedAt pl (plotToCurve pl x y)

/-- `HilbertPlot::indexOf` (`hilbertplot.cpp:178-183`). -/
def indexOf (pl : HilbertPlot) (x y : Nat) : Except HErr Nat :=
  if pl.width ≤ x ∨ pl.height ≤ y then .error .indexOutOfRange
  else .ok (plotToCurve pl x y)

/-- `HilbertPlot::generateImage` (`hilbertplot.cpp:197-220`): a
`width × height` matrix, zero-initialised, with `image[p.x][p.y]` written
for every curve point.  With `threshold > 0` the written value is
`(valueAt(x,y) - m_min) * minmax`, overridden by `2` when
`difference / meanDifference > threshold`; with `threshold ≤ 0` it is
`valueAt(x,y) * minmax` (the stored value is not shifted by `m_min`). -/
def generateImage (pl : HilbertPlot) (threshold : ℚ) : List (List ℚ) :=
  let minmax := if pl.m_max = pl.m_min then 0 else 1 / (pl.m_max - pl.m_min)
  let entry := fun (x y : Nat) =>
    pl.curve.points.foldl
      (fun acc p =>
        if p.x = (x : ℤ) ∧ p.y = (y : ℤ) then
          if 0 < threshold then
            let v := (pl.m_data.getD (plotToCurve pl x y) 0 - pl.m_min) * minmax
            if threshold < p.difference / pl.curve.meanDifference then 2 else v
          else pl.m_data.getD (plotToCurve pl x y) 0 * minmax
        else acc) 0
  (List.range pl.width).map fun x => (List.range pl.height).map fun y => entry x y

/-- `HilbertPlot::replaceData` (`hilbertplot.cpp:233-249`): requires equal
sizes (else `HilbertBadSize`); rebuilds `m_data` as
`(v - min) * (1 / (max - min))` over the incoming data.  There is no guard
for `min = max` (the C++ scale factor is then `1.0/0.0`; `ℚ` renders the
unguarded division as `0`).  The cached `m_min`/`m_max` are not touched. -/
def replaceData (pl : HilbertPlot) (data : List ℚ) : Except HErr HilbertPlot :=
  if pl.m_data.length ≠ data.length then .error .badSize
  else
    let mx := listMax data
    let mn := listMin data
    let minmax := 1 / (mx - mn)
    .ok { pl with m_data := data.map fun v => (v - mn) * minmax }

/-- Smallest positive normal `double`
(`std::numeric_limits<double>::min()` = `2^-1022`). -/
def dblMin : ℚ := 1 / 2 ^ 1022

/-- Largest finite `double`
(`std::numeric_limits<double>::max()` = `2^1024 - 2^971`). -/
def dblMax : ℚ := 2 ^ 1024 - 2 ^ 971

/-- Squared magnitudes of the complex half-spectrum bins
(`hilbertplot.cpp:299-301`): `re² + im²`. -/
def sqMag (bins : List (ℚ × ℚ)) : List ℚ :=
  bins.map fun b => b.1 * b.1 + b.2 * b.2

/-- The max/max2/min scan of `HilbertPlot::hpFourierTransform`
(`hilbertplot.cpp:269-308`): starting from
`max = max2 = DBL_MIN, min = DBL_MAX`, for each squared magnitude `v` run
`if (max < v) max = v; if (min > v) min = v;
if (max2 < v && v < max) max2 = v;` (the `v < max` test uses the already
updated `max`).  Returns `(max, max2, min)`. -/
def fftScan (vals : List ℚ) : ℚ × ℚ × ℚ :=
  vals.foldl
    (fun acc v =>
      let mx := if acc.1 < v then v else acc.1
      let mn := if v < acc.2.2 then v else acc.2.2
      let mx2 := if acc.2.1 < v ∧ v < mx then v else acc.2.1
      (mx, mx2, mn))
    (dblMin, dblMin, dblMax)

/-- The clamp applied to each bin before normalization in the linear mode
(`hilbertplot.cpp:327-328`): `if (wdf >= max) wdf = max2`. -/
def fftClampLinear (vals : List ℚ) : List ℚ :=
  let s := fftScan vals
  vals.map fun v => if s.1 ≤ v then s.2.1 else v

/-- The clamp applied to each bin before normalization in the logarithmic
mode (`hilbertplot.cpp:334-335`): `if (wdf > max2) wdf = max2`. -/
def fftClampLog (vals : List ℚ) : List ℚ :=
  let s := fftScan vals
  vals.map fun v => if s.2.1 < v then s.2.1 else v

/-- Modelled from the spec (§4.6 "Outlier clamping: the single
largest-magnitude bin is clamped to the second-largest value"): the
second-largest bin value of a spectrum, i.e. the maximum after removing
one occurrence of the maximum. -/
def secondLargest (vals : List ℚ) : ℚ :=
  listMax (vals.erase (listMax vals))

/-! ### Region invariant machinery

`GoodList w h c l` says that `l` enumerates each cell of the `w × h` grid
with origin `c` exactly once: this is the bijection invariant of claim C1,
maintained by every stage of the construction. -/

/-- Membership of a point in the `w × h` grid with origin `c`. -/
def InGrid (w h : Nat) (c : Pt) (p : Pt) : Prop :=
  c.1 ≤ p.1 ∧ p.1 < c.1 + w ∧ c.2 ≤ p.2 ∧ p.2 < c.2 + h

instance (w h : Nat) (c p : Pt) : Decidable (InGrid w h c p) :=
  inferInstanceAs (Decidable (_ ∧ _ ∧ _ ∧ _))

/-- The list `l` visits every cell of the `w × h` grid at `c` exactly
once. -/
def GoodList (w h : Nat) (c : Pt) (l : List Pt) : Prop :=
  l.Nodup ∧ l.length = w * h ∧ ∀ p ∈ l, InGrid w h c p

/-- Coordinates of an `HPoint`. -/
def hpCoords (p : HP) : Pt := (p.x, p.y)

/-- The grid `{0..w-1} × {0..h-1}` of claim C1, enumerated as a list. -/
def gridList (w h : Nat) : List Pt :=
  (List.range w ×ˢ List.range h).map fun p => ((p.1 : ℤ), (p.2 : ℤ))

/-- Unit-step (Manhattan distance 1) adjacency between all consecutive
points of a curve, the property of claim C2: every adjacent pair in the
traversal is at Manhattan distance exactly 1. -/
def manhattanUnitSteps (l : List HP) : Prop :=
  ∀ pr ∈ l.zip l.tail, |pr.1.x - pr.2.x| + |pr.1.y - pr.2.y| = 1

instance (l : List HP) : Decidable (manhattanUnitSteps l) :=
  inferInstanceAs
    (Decidable (∀ pr ∈ l.zip l.tail, |pr.1.x - pr.2.x| + |pr.1.y - pr.2.y| = 1))

/-- Cells of a `w × h` region with origin `c`, as a finite set. -/
def regionCells (w h : Nat) (c : Pt) : Finset Pt :=
  (Finset.range w ×ˢ Finset.range h).image
    fun p => (c.1 + (p.1 : ℤ), c.2 + (p.2 : ℤ))

/-- Cell set of a `QuasiSquare` (`n` rows, `m` columns at `coord`). -/
def QS.cells (q : QS) : Finset Pt :=
  regionCells q.m q.n q.coord

/-- Modelled from the spec (§4.6 "compare padding waste"): the padding
waste `|L - width·height|` of a candidate dimension pair. -/
def wasteOf (lenght : Nat) (d : Nat × Nat) : Nat :=
  ((lenght : ℤ) - (d.1 * d.2 : Nat)).natAbs

def rasterList (w h : Nat) : List Pt :=
  (List.range (w * h)).map fun k => (((k % w : Nat) : ℤ), ((k / w : Nat) : ℤ))

def neighborOffsets : List Pt :=
  [(1, 0), (-1, 0), (0, 1), (0, -1), (1, 1), (-1, 1), (1, -1), (-1, -1)]

def posIdx (l : List Pt) (p : Pt) : Nat :=
  @List.indexOf Pt instBEqOfDecidableEq p l

def specScore (l : List Pt) (w h : Nat) (p : Pt) : ℚ :=
  let ns := (neighborOffsets.map fun d => (p.1 + d.1, p.2 + d.2)).filter
    fun q => decide (InGrid w h (0, 0) q)
  (ns.map fun q => |((posIdx l p : Nat) : ℚ) - ((posIdx l q : Nat) : ℚ)|).sum /
    (ns.length : ℚ)

def rasterKey (w : Nat) (p : HP) : ℤ := p.y * w + p.x

def hpOfPos (l : List Pt) (p : Pt) : HP := ⟨p.1, p.2, 0, posIdx l p⟩

def hpScored (l : List Pt) (w h : Nat) (p : Pt) : HP :=
  ⟨p.1, p.2, specScore l w h p, posIdx l p⟩

instance : IsTotal HP rasterLE :=
  ⟨fun p q => by unfold rasterLE; omega⟩

instance : IsTrans HP rasterLE :=
  ⟨fun a b c hab hbc => by unfold rasterLE at hab hbc ⊢; omega⟩

instance : IsTotal HP indexLE :=
  ⟨fun p q => by unfold indexLE; omega⟩

instance : IsTrans HP indexLE :=
  ⟨fun a b c hab hbc => by unfold indexLE at hab hbc ⊢; omega⟩

/-! ### Theorems -/

theorem GoodList.perm {w h : Nat} {c : Pt} {l l' : List Pt}
    (hp : l'.Perm l) (hg : GoodList w h c l) : GoodList w h c l' :=
  ⟨hp.nodup_iff.mpr hg.1, hp.length_eq.trans hg.2.1,
   fun p hpl => hg.2.2 p (hp.mem_iff.mp hpl)⟩

/-- Four lists covering the four sub-blocks of a `(w1+w2) × (h1+h2)` grid
(lower-left, upper-left, upper-right, lower-right) concatenate, in any
order, to a cover of the whole grid. -/
theorem goodList_append4 {w h w1 w2 h1 h2 : Nat} {c : Pt}
    {lBL lTL lTR lBR l : List Pt}
    (hl : l.Perm (lBL ++ lTL ++ lTR ++ lBR))
    (hBL : GoodList w1 h1 c lBL)
    (hTL : GoodList w1 h2 (c.1, c.2 + (h1 : ℤ)) lTL)
    (hTR : GoodList w2 h2 (c.1 + (w1 : ℤ), c.2 + (h1 : ℤ)) lTR)
    (hBR : GoodList w2 h1 (c.1 + (w1 : ℤ), c.2) lBR)
    (hw : w = w1 + w2) (hh : h = h1 + h2) :
    GoodList w h c l := by
  subst hw hh
  refine GoodList.perm hl ?_
  obtain ⟨nd1, len1, mem1⟩ := hBL
  obtain ⟨nd2, len2, mem2⟩ := hTL
  obtain ⟨nd3, len3, mem3⟩ := hTR
  obtain ⟨nd4, len4, mem4⟩ := hBR
  refine ⟨?_, ?_, ?_⟩
  · simp only [List.nodup_append]
    refine ⟨⟨⟨nd1, nd2, ?_⟩, nd3, ?_⟩, nd4, ?_⟩
    · intro p h1m h2m
      have := mem1 p h1m
      have := mem2 p h2m
      unfold InGrid at *
      omega
    · intro p hm h3m
      have h3 := mem3 p h3m
      rcases List.mem_append.mp hm with hm | hm
      · have := mem1 p hm
        unfold InGrid at *
        omega
      · have := mem2 p hm
        unfold InGrid at *
        omega
    · intro p hm h4m
      have h4 := mem4 p h4m
      rcases List.mem_append.mp hm with hm | hm
      · rcases List.mem_append.mp hm with hm | hm
        · have := mem1 p hm
          unfold InGrid at *
          omega
        · have := mem2 p hm
          unfold InGrid at *
          omega
      · have := mem3 p hm
        unfold InGrid at *
        omega
  · simp only [List.length_append, len1, len2, len3, len4]
    ring
  · intro p hm
    rcases List.mem_append.mp hm with hm | hm
    · rcases List.mem_append.mp hm with hm | hm
      · rcases List.mem_append.mp hm with hm | hm
        · have := mem1 p hm
          unfold InGrid at *
          omega
        · have := mem2 p hm
          unfold InGrid at *
          omega
      · have := mem3 p hm
        unfold InGrid at *
        omega
    · have := mem4 p hm
      unfold InGrid at *
      omega

theorem perm_adcb {α : Type} [DecidableEq α] (a b c d : List α) :
    (a ++ d ++ c ++ b).Perm (a ++ b ++ c ++ d) := by
  rw [List.perm_iff_count]
  intro x
  simp only [List.count_append]
  ring

theorem perm_cdab {α : Type} [DecidableEq α] (a b c d : List α) :
    (c ++ d ++ a ++ b).Perm (a ++ b ++ c ++ d) := by
  rw [List.perm_iff_count]
  intro x
  simp only [List.count_append]
  ring

theorem perm_cbad {α : Type} [DecidableEq α] (a b c d : List α) :
    (c ++ b ++ a ++ d).Perm (a ++ b ++ c ++ d) := by
  rw [List.perm_iff_count]
  intro x
  simp only [List.count_append]
  ring

/-- `QuasiSquare::BuildCurve` visits each cell of its region exactly once
(whenever the fuel covers the recursion depth `n + m`). -/
theorem qsBuildF_good : ∀ (fuel n m : Nat) (c : Pt) (o : Orientation),
    n + m ≤ fuel → GoodList m n c (qsBuildF fuel n m c o) := by
  intro fuel
  induction fuel with
  | zero =>
    intro n m c o hle
    have hn : n = 0 := by omega
    have hm : m = 0 := by omega
    subst hn hm
    exact ⟨List.nodup_nil, rfl, by simp [qsBuildF]⟩
  | succ fuel ih =>
    intro n m c o hle
    by_cases hbig : 2 < n ∨ 2 < m
    · rw [qsBuildF, if_pos hbig]
      rcases o with _ | _ | _ | _
      · simp only [Partition, partDims]
        split_ifs <;>
          exact goodList_append4 (List.Perm.refl _)
            (ih _ _ _ _ (by omega)) (ih _ _ _ _ (by omega))
            (ih _ _ _ _ (by omega)) (ih _ _ _ _ (by omega))
            (by omega) (by omega)
      · simp only [Partition, partDims]
        split_ifs <;>
          exact goodList_append4 (perm_adcb _ _ _ _)
            (ih _ _ _ _ (by omega)) (ih _ _ _ _ (by omega))
            (ih _ _ _ _ (by omega)) (ih _ _ _ _ (by omega))
            (by omega) (by omega)
      · simp only [Partition, partDims]
        split_ifs <;>
          exact goodList_append4 (perm_cdab _ _ _ _)
            (ih _ _ _ _ (by omega)) (ih _ _ _ _ (by omega))
            (ih _ _ _ _ (by omega)) (ih _ _ _ _ (by omega))
            (by omega) (by omega)
      · simp only [Partition, partDims]
        split_ifs <;>
          exact goodList_append4 (perm_cbad _ _ _ _)
            (ih _ _ _ _ (by omega)) (ih _ _ _ _ (by omega))
            (ih _ _ _ _ (by omega)) (ih _ _ _ _ (by omega))
            (by omega) (by omega)
    · rw [qsBuildF, if_neg hbig]
      have hn : n ≤ 2 := by omega
      have hm : m ≤ 2 := by omega
      interval_cases n <;> interval_cases m <;>
        rcases o with _ | _ | _ | _ <;>
        simp only [qsBase] <;>
        refine ⟨?_, rfl, ?_⟩ <;>
        first
        | (simp only [List.nodup_cons, List.mem_cons, List.mem_singleton,
             List.not_mem_nil, List.nodup_nil, Prod.ext_iff, or_false,
             not_or, and_true, not_and, not_false_eq_true, and_self,
             not_true_eq_false] <;>
           omega)
        | (intro p hp
           fin_cases hp <;> simp only [InGrid] <;> refine ⟨?_, ?_, ?_, ?_⟩ <;>
             omega)

/-- Reversal preserves the cell cover. -/
theorem GoodList.rev {w h : Nat} {c : Pt} {l : List Pt}
    (hg : GoodList w h c l) : GoodList w h c l.reverse :=
  hg.perm l.reverse_perm

/-- `reflect` maps the cells of a region bijectively onto themselves, so
it preserves the cell cover. -/
theorem reflectPts_good {w h : Nat} {c : Pt} (o : Orientation) {l : List Pt}
    (hg : GoodList w h c l) : GoodList w h c (reflectPts w h c o l) := by
  obtain ⟨nd, len, mem⟩ := hg
  rcases o with _ | _ | _ | _ <;> simp only [reflectPts] <;>
    refine ⟨List.Nodup.map ?_ nd, by simpa using len, ?_⟩ <;>
    first
    | (intro a b hab
       rw [Prod.ext_iff] at hab ⊢
       simp only at hab
       omega)
    | (intro p hp
       rw [List.mem_map] at hp
       obtain ⟨q, hq, rfl⟩ := hp
       have := mem q hq
       unfold InGrid at *
       simp only at *
       omega)

/-- Every quadrant transform preserves the cell cover. -/
theorem applyTransf_good {w h : Nat} {c : Pt} (t : Transf) (o : Orientation)
    {l : List Pt} (hg : GoodList w h c l) :
    GoodList w h c (applyTransf t w h c o l) := by
  rcases t with _ | _ | _ | _
  · exact hg
  · exact hg.rev
  · exact reflectPts_good o hg
  · exact (reflectPts_good o hg).rev

/-- In every production of the table, each child type has strictly
smaller rank than its (non-`H0`) parent. -/
theorem builderTable_rank : ∀ (t : CurveType) (o : Orientation),
    t ≠ CurveType.H0 →
    rankT (builderTable t o).1.1 < rankT t ∧
    rankT (builderTable t o).2.1.1 < rankT t ∧
    rankT (builderTable t o).2.2.1.1 < rankT t ∧
    rankT (builderTable t o).2.2.2.1 < rankT t := by
  decide

/-- Every one of the 40 builders visits each cell of its region exactly
once (whenever the fuel exceeds the recursion measure
`3·(w+h) + rankT t`). -/
theorem hcBuildF_good : ∀ (fuel : Nat) (t : CurveType) (w h : Nat) (c : Pt)
    (o : Orientation), 3 * (w + h) + rankT t < fuel →
    GoodList w h c (hcBuildF fuel t w h c o) := by
  intro fuel
  induction fuel with
  | zero => intro t w h c o hlt; omega
  | succ fuel ih =>
    intro t w h c o hlt
    by_cases ht : t = CurveType.H0
    · subst ht
      rw [hcBuildF, if_pos rfl]
      exact qsBuildF_good _ _ _ _ _ le_rfl
    · rw [hcBuildF, if_neg ht]
      have hr := builderTable_rank t o ht
      rcases o with _ | _ | _ | _
      · exact goodList_append4 (List.Perm.refl _)
          (applyTransf_good _ _ (ih _ _ _ _ _ (by omega)))
          (applyTransf_good _ _ (ih _ _ _ _ _ (by omega)))
          (applyTransf_good _ _ (ih _ _ _ _ _ (by omega)))
          (applyTransf_good _ _ (ih _ _ _ _ _ (by omega)))
          (by omega) (by omega)
      · exact goodList_append4 (perm_adcb _ _ _ _)
          (applyTransf_good _ _ (ih _ _ _ _ _ (by omega)))
          (applyTransf_good _ _ (ih _ _ _ _ _ (by omega)))
          (applyTransf_good _ _ (ih _ _ _ _ _ (by omega)))
          (applyTransf_good _ _ (ih _ _ _ _ _ (by omega)))
          (by omega) (by omega)
      · exact goodList_append4 (perm_cdab _ _ _ _)
          (applyTransf_good _ _ (ih _ _ _ _ _ (by omega)))
          (applyTransf_good _ _ (ih _ _ _ _ _ (by omega)))
          (applyTransf_good _ _ (ih _ _ _ _ _ (by omega)))
          (applyTransf_good _ _ (ih _ _ _ _ _ (by omega)))
          (by omega) (by omega)
      · exact goodList_append4 (perm_cbad _ _ _ _)
          (applyTransf_good _ _ (ih _ _ _ _ _ (by omega)))
          (applyTransf_good _ _ (ih _ _ _ _ _ (by omega)))
          (applyTransf_good _ _ (ih _ _ _ _ _ (by omega)))
          (applyTransf_good _ _ (ih _ _ _ _ _ (by omega)))
          (by omega) (by omega)

/-- `Build()` visits each cell of the requested region exactly once, for
every family, size, origin and orientation. -/
theorem hcBuild_good (t : CurveType) (w h : Nat) (c : Pt)
    (o : Orientation) : GoodList w h c (hcBuild t w h c o) :=
  hcBuildF_good _ _ _ _ _ _ (by omega)

/-- `BuildDifference` only reorders points (twice sorted) and rewrites
their `index`/`difference` fields: the multiset of coordinates is that of
the input list. -/
theorem buildDifference_coords_perm (w h : Nat) (l : List Pt) :
    (((buildDifference w h l).1.map hpCoords)).Perm l := by
  unfold buildDifference
  have h1 : ∀ (u : List HP),
      ((u.enum.map fun pr =>
        if pr.1 < h * w then
          { pr.2 with difference := cellScore u w h (pr.1 % w) (pr.1 / w) }
        else pr.2).map hpCoords) = u.map hpCoords := by
    intro u
    rw [List.map_map]
    have : (hpCoords ∘ fun pr : Nat × HP =>
        if pr.1 < h * w then
          { pr.2 with difference := cellScore u w h (pr.1 % w) (pr.1 / w) }
        else pr.2) = (fun pr : Nat × HP => hpCoords pr.2) := by
      funext pr
      by_cases hc : pr.1 < h * w <;> simp [hc, hpCoords]
    rw [this]
    have : (fun pr : Nat × HP => hpCoords pr.2) = hpCoords ∘ Prod.snd := rfl
    rw [this, ← List.map_map, List.enum_map_snd]
  have h2 : ((l.enum.map fun pr => HP.mk pr.2.1 pr.2.2 0 pr.1).map hpCoords)
      = l := by
    rw [List.map_map]
    have : (hpCoords ∘ fun pr : Nat × Pt => HP.mk pr.2.1 pr.2.2 0 pr.1)
        = Prod.snd := by
      funext pr
      simp [hpCoords]
    rw [this, List.enum_map_snd]
  refine ((List.perm_insertionSort indexLE _).map hpCoords).trans ?_
  rw [h1]
  refine ((List.perm_insertionSort rasterLE _).map hpCoords).trans ?_
  rw [h2]

theorem gridList_length (w h : Nat) : (gridList w h).length = w * h := by
  simp [gridList, List.length_product]

theorem gridList_nodup (w h : Nat) : (gridList w h).Nodup := by
  have h1 : (List.range w).Nodup := List.nodup_range w
  have h2 : (List.range h).Nodup := List.nodup_range h
  refine List.Nodup.map ?_ (h1.product h2)
  intro a b hab
  rw [Prod.ext_iff] at hab ⊢
  simp only at hab
  omega

theorem gridList_mem (w h : Nat) (p : Pt) :
    p ∈ gridList w h ↔ InGrid w h (0, 0) p := by
  unfold gridList InGrid
  rw [List.mem_map]
  constructor
  · rintro ⟨⟨a, b⟩, hq, rfl⟩
    rw [List.mem_product] at hq
    simp only [List.mem_range] at hq
    simp only
    omega
  · intro hp
    refine ⟨(p.1.toNat, p.2.toNat), ?_, ?_⟩
    · rw [List.mem_product]
      simp only [List.mem_range]
      omega
    · rw [Prod.ext_iff]
      simp only
      omega

/-- A list that covers the origin grid exactly once is a permutation of
its canonical enumeration. -/
theorem goodList_perm_gridList {w h : Nat} {l : List Pt}
    (hg : GoodList w h (0, 0) l) : l.Perm (gridList w h) := by
  apply List.perm_of_nodup_nodup_toFinset_eq hg.1 (gridList_nodup w h)
  apply Finset.eq_of_subset_of_card_le
  · intro p hp
    rw [List.mem_toFinset] at hp ⊢
    rw [gridList_mem]
    exact hg.2.2 p hp
  · rw [List.toFinset_card_of_nodup (gridList_nodup w h),
      List.toFinset_card_of_nodup hg.1, gridList_length, hg.2.1]

/-- The coordinates of the constructor's final point list cover the
requested region exactly once (both with and without the difference
pass). -/
theorem mkHilbertCurve_good (w h : Nat) (t : CurveType) (c : Pt)
    (o : Orientation) (dflag : Bool) :
    GoodList w h c ((mkHilbertCurve w h t c o dflag).points.map hpCoords) := by
  unfold mkHilbertCurve
  rcases dflag with _ | _
  · simp only [Bool.false_eq_true, if_neg, ite_false]
    rw [List.map_map]
    have : (hpCoords ∘ fun p : Pt => HP.mk p.1 p.2 0 0) = id := by
      funext p
      simp [hpCoords]
    rw [this, List.map_id]
    exact hcBuild_good t w h c o
  · simp only [ite_true]
    have hb : ((buildDifference w h (hcBuild t w h c o)).1.map hpCoords).Perm
        (hcBuild t w h c o) := buildDifference_coords_perm w h _
    have hg : GoodList w h c
        ((buildDifference w h (hcBuild t w h c o)).1.map hpCoords) :=
      (hcBuild_good t w h c o).perm hb
    have hrefl : ((reflectYHP h c.2
        (buildDifference w h (hcBuild t w h c o)).1).map hpCoords)
        = reflectPts w h c .B
          ((buildDifference w h (hcBuild t w h c o)).1.map hpCoords) := by
      unfold reflectYHP
      simp only [reflectPts]
      rw [List.map_map, List.map_map]
      rfl
    rw [hrefl]
    exact reflectPts_good .B hg

/-- C1: for every one of the 40 curve families, every width and height at
least 1 and every orientation, the constructed `HilbertCurve` (with or
without the difference pass) has exactly `width·height` points, and their
`(x, y)` coordinate pairs are a permutation of (i.e. in bijection with)
the grid `{0..width-1} × {0..height-1}`. -/
theorem C1_curve_is_grid_bijection (t : CurveType) (w h : Nat)
    (o : Orientation) (dflag : Bool) (_hw : 1 ≤ w) (_hh : 1 ≤ h) :
    (mkHilbertCurve w h t (0, 0) o dflag).points.length = w * h ∧
    ((mkHilbertCurve w h t (0, 0) o dflag).points.map hpCoords).Perm
      (gridList w h) := by
  have hg := mkHilbertCurve_good w h t (0, 0) o dflag
  have hperm := goodList_perm_gridList hg
  refine ⟨?_, hperm⟩
  have := hperm.length_eq
  rw [gridList_length] at this
  rw [← this, List.length_map]

/-- Witness for C1 at a concrete instance: family `H7`, a `3 × 2` grid,
orientation `C`, with the difference pass. -/
theorem C1_curve_is_grid_bijection_witness :
    1 ≤ 3 ∧ 1 ≤ 2 ∧
    ((mkHilbertCurve 3 2 .H7 (0, 0) .C true).points.length = 3 * 2 ∧
    ((mkHilbertCurve 3 2 .H7 (0, 0) .C true).points.map hpCoords).Perm
      (gridList 3 2)) :=
  ⟨by decide, by decide,
   C1_curve_is_grid_bijection .H7 3 2 .C true (by decide) (by decide)⟩

/-- C2 fails on the code: the `H0` curve of width 3, height 2, orientation
`A` (the constructor's default) contains consecutive points at Manhattan
distance 2.  Concretely its point sequence is
`(0,1), (1,1), (0,0), (1,0), (2,0), (2,1)`, with a jump between the second
and third point. -/
theorem C2_adjacency_fails_at_H0_3x2 :
    ¬ manhattanUnitSteps (mkHilbertCurve 3 2 .H0 (0, 0) .A true).points ∧
    (mkHilbertCurve 3 2 .H0 (0, 0) .A true).points.map hpCoords =
      [(0, 1), (1, 1), (0, 0), (1, 0), (2, 0), (2, 1)] := by
  constructor
  · decide
  · decide

/-- C9: on any built curve, `reverse` applied twice restores the original
point sequence, and `reflect` (x about the vertical centre for `A`/`C`, y
about the horizontal centre for `B`/`D`) applied twice restores it as
well. -/
theorem C9_reverse_reflect_involutive (w h : Nat) (t : CurveType) (c : Pt)
    (o : Orientation) (dflag : Bool) :
    (mkHilbertCurve w h t c o dflag).reverse.reverse =
      mkHilbertCurve w h t c o dflag ∧
    (mkHilbertCurve w h t c o dflag).reflect.reflect =
      mkHilbertCurve w h t c o dflag := by
  suffices hgen : ∀ cu : Curve, cu.reverse.reverse = cu ∧ cu.reflect.reflect = cu from
    hgen _
  intro cu
  constructor
  · cases cu
    simp [Curve.reverse]
  · rcases cu with ⟨cw, ch, ct, cc, co, cpts, cmd⟩
    rcases co with _ | _ | _ | _ <;>
      simp only [Curve.reflect, List.map_map, Curve.mk.injEq, true_and,
        and_true] <;>
      · refine (List.map_congr_left ?_).trans (List.map_id cpts)
        intro p _
        rcases p with ⟨px, py, pd, pi⟩
        simp only [Function.comp_apply, id_eq, HP.mk.injEq]
        refine ⟨?_, ?_, ?_, ?_⟩ <;> first | rfl | ring_nf

theorem regionCells_mem (w h : Nat) (c : Pt) (p : Pt) :
    p ∈ regionCells w h c ↔ InGrid w h c p := by
  unfold regionCells InGrid
  rw [Finset.mem_image]
  constructor
  · rintro ⟨⟨a, b⟩, hq, rfl⟩
    rw [Finset.mem_product] at hq
    simp only [Finset.mem_range] at hq
    simp only
    omega
  · intro hp
    refine ⟨((p.1 - c.1).toNat, (p.2 - c.2).toNat), ?_, ?_⟩
    · rw [Finset.mem_product]
      simp only [Finset.mem_range]
      omega
    · rw [Prod.ext_iff]
      simp only
      omega

/-- C3: for `n, m ≥ 1` and any orientation, the four children emitted by
`QuasiSquare::Partition` tile the parent `n × m` region exactly and
without overlap: their cell sets are pairwise disjoint, their union is the
parent's cell set, and their areas sum to `n·m`. -/
theorem C3_partition_tiles (n m : Nat) (c : Pt) (o : Orientation)
    (hn : 1 ≤ n) (hm : 1 ≤ m) :
    (Disjoint (Partition n m c o).1.cells (Partition n m c o).2.1.cells ∧
     Disjoint (Partition n m c o).1.cells (Partition n m c o).2.2.1.cells ∧
     Disjoint (Partition n m c o).1.cells (Partition n m c o).2.2.2.cells ∧
     Disjoint (Partition n m c o).2.1.cells (Partition n m c o).2.2.1.cells ∧
     Disjoint (Partition n m c o).2.1.cells (Partition n m c o).2.2.2.cells ∧
     Disjoint (Partition n m c o).2.2.1.cells (Partition n m c o).2.2.2.cells) ∧
    ((Partition n m c o).1.cells ∪ (Partition n m c o).2.1.cells ∪
     (Partition n m c o).2.2.1.cells ∪ (Partition n m c o).2.2.2.cells =
      regionCells m n c) ∧
    ((Partition n m c o).1.n * (Partition n m c o).1.m +
     (Partition n m c o).2.1.n * (Partition n m c o).2.1.m +
     (Partition n m c o).2.2.1.n * (Partition n m c o).2.2.1.m +
     (Partition n m c o).2.2.2.n * (Partition n m c o).2.2.2.m = n * m) := by
  rcases o with _ | _ | _ | _ <;>
    simp only [Partition, partDims] <;>
    split_ifs <;>
    refine ⟨⟨?_, ?_, ?_, ?_, ?_, ?_⟩, ?_, ?_⟩ <;>
    first
    | (rw [Finset.disjoint_left]
       intro p hp hp'
       rw [QS.cells, regionCells_mem] at hp hp'
       unfold InGrid at hp hp'
       simp only at hp hp'
       omega)
    | (apply Finset.ext
       intro p
       simp only [Finset.mem_union, QS.cells, regionCells_mem]
       unfold InGrid
       simp only
       omega)
    | (zify [Nat.div_le_self]
       ring)

/-- Characterization used to evaluate `Nat.sqrt` on literals. -/
theorem sqrtEq {L s : Nat} (h1 : s * s ≤ L) (h2 : L < (s + 1) * (s + 1)) :
    Nat.sqrt L = s :=
  le_antisymm (by rwa [← Nat.lt_succ_iff, Nat.sqrt_lt]) (Nat.le_sqrt.mpr h1)

/-- C4 as stated is false: `bestDimensions 24 = (5, 5)`, but among the
claim's candidate list `(5,5), (4,6), (4,5)` the pair `(4,6)` has padding
waste 0 while `(5,5)` has waste 1, so the returned pair does not minimize
the waste over those candidates (the code never considers `(4,6)`). -/
theorem C4_claim_fails_at_24 :
    bestDimensions 24 = (5, 5) ∧
    wasteOf 24 (4, 6) < wasteOf 24 (bestDimensions 24) := by
  have h24 : Nat.sqrt 24 = 4 := sqrtEq (by norm_num) (by norm_num)
  have hbd : bestDimensions 24 = (5, 5) := by
    simp only [bestDimensions, h24]
    norm_num
  refine ⟨hbd, ?_⟩
  rw [hbd]
  simp only [wasteOf]
  norm_num

/-- C4 amended: `bestDimensions 25 = (5,5)`; for a perfect square `L` the
result is `(√L, √L)`; otherwise, with `f = ⌊√L⌋` and `c = f + 1`, the
result is one of the code's candidates `(f,f)`, `(c,c)`, `(c,f)` and
minimizes the padding waste `|L-f·f|`, `|L-c·c|`, `|L-f·c|` among exactly
those three candidates (the spec's candidate `(4,6)`-style pairs are not
considered). -/
theorem C4_bestDimensions_minimizes_code_candidates (lenght : Nat) :
    bestDimensions 25 = (5, 5) ∧
    (Nat.sqrt lenght * Nat.sqrt lenght = lenght →
      bestDimensions lenght = (Nat.sqrt lenght, Nat.sqrt lenght)) ∧
    (Nat.sqrt lenght * Nat.sqrt lenght ≠ lenght →
      bestDimensions lenght ∈
        [(Nat.sqrt lenght, Nat.sqrt lenght),
         (Nat.sqrt lenght + 1, Nat.sqrt lenght + 1),
         (Nat.sqrt lenght + 1, Nat.sqrt lenght)] ∧
      ∀ d ∈ [(Nat.sqrt lenght, Nat.sqrt lenght),
             (Nat.sqrt lenght + 1, Nat.sqrt lenght + 1),
             (Nat.sqrt lenght + 1, Nat.sqrt lenght)],
        wasteOf lenght (bestDimensions lenght) ≤ wasteOf lenght d) := by
  refine ⟨?_, ?_, ?_⟩
  · have h25 : Nat.sqrt 25 = 5 := sqrtEq (by norm_num) (by norm_num)
    simp only [bestDimensions, h25]
    norm_num
  · intro hsq
    simp only [bestDimensions, if_pos hsq]
  · intro hsq
    simp only [bestDimensions, if_neg hsq]
    split_ifs with h1 h2 h3 <;>
      refine ⟨by simp, ?_⟩ <;>
      · intro d hd
        fin_cases hd <;>
          · simp only [wasteOf] at h1 ⊢ <;>
            first
            | omega
            | (ring_nf at * <;> omega)

/-- Witness for C3 at `n = 3`, `m = 2`, origin `(0,0)`, orientation `A`
(area conjunct). -/
theorem C3_partition_tiles_witness :
    1 ≤ 3 ∧ 1 ≤ 2 ∧
    ((Partition 3 2 (0, 0) .A).1.n * (Partition 3 2 (0, 0) .A).1.m +
     (Partition 3 2 (0, 0) .A).2.1.n * (Partition 3 2 (0, 0) .A).2.1.m +
     (Partition 3 2 (0, 0) .A).2.2.1.n * (Partition 3 2 (0, 0) .A).2.2.1.m +
     (Partition 3 2 (0, 0) .A).2.2.2.n * (Partition 3 2 (0, 0) .A).2.2.2.m =
      3 * 2) :=
  ⟨by decide, by decide,
   (C3_partition_tiles 3 2 (0, 0) .A (by decide) (by decide)).2.2⟩

/-- Witness for the amended C4 at `lenght = 24` (not a perfect square). -/
theorem C4_bestDimensions_minimizes_code_candidates_witness :
    Nat.sqrt 24 * Nat.sqrt 24 ≠ 24 ∧
    (bestDimensions 24 ∈
      [(Nat.sqrt 24, Nat.sqrt 24), (Nat.sqrt 24 + 1, Nat.sqrt 24 + 1),
       (Nat.sqrt 24 + 1, Nat.sqrt 24)] ∧
     ∀ d ∈ [(Nat.sqrt 24, Nat.sqrt 24), (Nat.sqrt 24 + 1, Nat.sqrt 24 + 1),
            (Nat.sqrt 24 + 1, Nat.sqrt 24)],
       wasteOf 24 (bestDimensions 24) ≤ wasteOf 24 d) :=
  have h24 : Nat.sqrt 24 = 4 := sqrtEq (by norm_num) (by norm_num)
  ⟨by rw [h24]; decide,
   (C4_bestDimensions_minimizes_code_candidates 24).2.2 (by rw [h24]; decide)⟩

theorem mkHilbertCurve_width (w h : Nat) (t : CurveType) (c : Pt)
    (o : Orientation) (d : Bool) : (mkHilbertCurve w h t c o d).width = w := by
  cases d <;> simp [mkHilbertCurve]

theorem mkHilbertCurve_height (w h : Nat) (t : CurveType) (c : Pt)
    (o : Orientation) (d : Bool) : (mkHilbertCurve w h t c o d).height = h := by
  cases d <;> simp [mkHilbertCurve]

/-- The stored data always has exactly `width·height` entries (padding or
truncation in the constructor). -/
theorem mkHilbertPlot_data_length (data : List ℚ) (w0 h0 : Nat)
    (t : CurveType) :
    (mkHilbertPlot data w0 h0 t).m_data.length =
      (mkHilbertPlot data w0 h0 t).width * (mkHilbertPlot data w0 h0 t).height := by
  unfold mkHilbertPlot
  simp only [HilbertPlot.width, HilbertPlot.height, mkHilbertCurve_width,
    mkHilbertCurve_height, List.length_append, List.length_take,
    List.length_replicate]
  omega

/-- Every point of a difference-pass curve carries a traversal index below
the list length. -/
theorem buildDifference_index_lt (w h : Nat) (l : List Pt) :
    ∀ p ∈ (buildDifference w h l).1, p.index < l.length := by
  intro p hp
  unfold buildDifference at hp
  rw [List.mem_insertionSort] at hp
  rw [List.mem_map] at hp
  obtain ⟨⟨k, q⟩, hk, rfl⟩ := hp
  have hq : q ∈ (l.enum.map fun pr =>
      HP.mk pr.2.1 pr.2.2 0 pr.1).insertionSort rasterLE := by
    obtain ⟨hk', he⟩ := List.getElem?_eq_some.mp (List.mem_enum_iff_getElem?.mp hk)
    have hm := List.getElem_mem hk'
    rwa [he] at hm

  rw [List.mem_insertionSort, List.mem_map] at hq
  obtain ⟨⟨i, r⟩, hi, rfl⟩ := hq
  have : i < l.length := by
    rw [List.mem_enum_iff_getElem?] at hi
    exact (List.getElem?_eq_some.mp hi).1
  by_cases hc : k < h * w <;> simp [hc] <;> omega

/-- Every point of a constructor-built difference curve carries a
traversal index below `w·h`. -/
theorem mkHilbertCurve_index_lt (w h : Nat) (t : CurveType) (c : Pt)
    (o : Orientation) :
    ∀ p ∈ (mkHilbertCurve w h t c o true).points, p.index < w * h := by
  intro p hp
  simp only [mkHilbertCurve, ite_true] at hp
  unfold reflectYHP at hp
  rw [List.mem_map] at hp
  obtain ⟨q, hq, rfl⟩ := hp
  have hlen := (hcBuild_good t w h c o).2.1
  have := buildDifference_index_lt w h _ q hq
  simp only
  omega

/-- The `m_plotToCurve` entry for any cell is below `width·height`
whenever the plot is nonempty. -/
theorem plotToCurve_lt (data : List ℚ) (w0 h0 : Nat) (t : CurveType)
    (x y : Nat)
    (hpos : 0 < (mkHilbertPlot data w0 h0 t).width *
      (mkHilbertPlot data w0 h0 t).height) :
    plotToCurve (mkHilbertPlot data w0 h0 t) x y <
      (mkHilbertPlot data w0 h0 t).width *
      (mkHilbertPlot data w0 h0 t).height := by
  have hcurve : (mkHilbertPlot data w0 h0 t).curve =
      mkHilbertCurve (mkHilbertPlot data w0 h0 t).width
        (mkHilbertPlot data w0 h0 t).height t (0, 0) .A true := by
    simp only [mkHilbertPlot, HilbertPlot.width, HilbertPlot.height,
      mkHilbertCurve_width, mkHilbertCurve_height]
  have hidx : ∀ p ∈ (mkHilbertPlot data w0 h0 t).curve.points,
      p.index < (mkHilbertPlot data w0 h0 t).width *
        (mkHilbertPlot data w0 h0 t).height := by
    rw [hcurve]
    exact mkHilbertCurve_index_lt _ _ _ _ _
  unfold plotToCurve
  have key : ∀ (pts : List HP) (init : Nat),
      init < (mkHilbertPlot data w0 h0 t).width *
        (mkHilbertPlot data w0 h0 t).height →
      (∀ p ∈ pts, p.index < (mkHilbertPlot data w0 h0 t).width *
        (mkHilbertPlot data w0 h0 t).height) →
      pts.foldl (fun acc p =>
        if p.x = (x : ℤ) ∧ p.y = (y : ℤ) then p.index else acc) init <
        (mkHilbertPlot data w0 h0 t).width *
        (mkHilbertPlot data w0 h0 t).height := by
    intro pts
    induction pts with
    | nil => intro init h0' _; exact h0'
    | cons p rest ih =>
      intro init h0' hall
      simp only [List.foldl_cons]
      by_cases hc : p.x = (x : ℤ) ∧ p.y = (y : ℤ)
      · rw [if_pos hc]
        exact ih _ (hall p (List.mem_cons_self p rest))
          fun q hq => hall q (List.mem_cons_of_mem p hq)
      · rw [if_neg hc]
        exact ih _ h0' fun q hq => hall q (List.mem_cons_of_mem p hq)
  exact key _ 0 hpos hidx

/-- C8: the accessors throw `HilbertIndexOutOfRange` exactly when the
index exceeds `width·height` (for linear access) or a coordinate exceeds
the corresponding dimension (for `(x, y)` access); an in-range access
returns the stored, resp. min/max-normalized, value. -/
theorem C8_access_out_of_range_iff (data : List ℚ) (w0 h0 : Nat)
    (t : CurveType) :
    (∀ i, valueAt (mkHilbertPlot data w0 h0 t) i = .error .indexOutOfRange ↔
      (mkHilbertPlot data w0 h0 t).width *
        (mkHilbertPlot data w0 h0 t).height ≤ i) ∧
    (∀ i, valueNormalizedAt (mkHilbertPlot data w0 h0 t) i =
        .error .indexOutOfRange ↔
      (mkHilbertPlot data w0 h0 t).width *
        (mkHilbertPlot data w0 h0 t).height ≤ i) ∧
    (∀ x y, valueAtXY (mkHilbertPlot data w0 h0 t) x y =
        .error .indexOutOfRange ↔
      ((mkHilbertPlot data w0 h0 t).width ≤ x ∨
       (mkHilbertPlot data w0 h0 t).height ≤ y)) ∧
    (∀ x y, valueNormalizedAtXY (mkHilbertPlot data w0 h0 t) x y =
        .error .indexOutOfRange ↔
      ((mkHilbertPlot data w0 h0 t).width ≤ x ∨
       (mkHilbertPlot data w0 h0 t).height ≤ y)) ∧
    (∀ x y, indexOf (mkHilbertPlot data w0 h0 t) x y =
        .error .indexOutOfRange ↔
      ((mkHilbertPlot data w0 h0 t).width ≤ x ∨
       (mkHilbertPlot data w0 h0 t).height ≤ y)) ∧
    (∀ i, i < (mkHilbertPlot data w0 h0 t).width *
        (mkHilbertPlot data w0 h0 t).height →
      valueAt (mkHilbertPlot data w0 h0 t) i =
        .ok ((mkHilbertPlot data w0 h0 t).m_data.getD i 0)) ∧
    (∀ i, i < (mkHilbertPlot data w0 h0 t).width *
        (mkHilbertPlot data w0 h0 t).height →
      valueNormalizedAt (mkHilbertPlot data w0 h0 t) i =
        .ok (((mkHilbertPlot data w0 h0 t).m_data.getD i 0 -
              (mkHilbertPlot data w0 h0 t).m_min) *
          (if (mkHilbertPlot data w0 h0 t).m_min =
              (mkHilbertPlot data w0 h0 t).m_max then 0
           else 1 / ((mkHilbertPlot data w0 h0 t).m_max -
              (mkHilbertPlot data w0 h0 t).m_min)))) := by
  have hlen := mkHilbertPlot_data_length data w0 h0 t
  refine ⟨?_, ?_, ?_, ?_, ?_, ?_, ?_⟩
  · intro i
    unfold valueAt
    rw [hlen]
    by_cases hi : (mkHilbertPlot data w0 h0 t).width *
        (mkHilbertPlot data w0 h0 t).height ≤ i <;>
      simp [hi]
  · intro i
    unfold valueNormalizedAt
    rw [hlen]
    by_cases hi : (mkHilbertPlot data w0 h0 t).width *
        (mkHilbertPlot data w0 h0 t).height ≤ i <;>
      simp [hi]
  · intro x y
    unfold valueAtXY
    by_cases hxy : (mkHilbertPlot data w0 h0 t).width ≤ x ∨
        (mkHilbertPlot data w0 h0 t).height ≤ y
    · simp [hxy]
    · rw [if_neg hxy]
      have hpos : 0 < (mkHilbertPlot data w0 h0 t).width *
          (mkHilbertPlot data w0 h0 t).height := by
        push_neg at hxy
        exact Nat.mul_pos (by omega) (by omega)
      have := plotToCurve_lt data w0 h0 t x y hpos
      rw [hlen]
      simp [hxy, Nat.not_le.mpr this]
  · intro x y
    unfold valueNormalizedAtXY valueNormalizedAt
    by_cases hxy : (mkHilbertPlot data w0 h0 t).width ≤ x ∨
        (mkHilbertPlot data w0 h0 t).height ≤ y
    · simp [hxy]
    · rw [if_neg hxy]
      have hpos : 0 < (mkHilbertPlot data w0 h0 t).width *
          (mkHilbertPlot data w0 h0 t).height := by
        push_neg at hxy
        exact Nat.mul_pos (by omega) (by omega)
      have := plotToCurve_lt data w0 h0 t x y hpos
      rw [hlen]
      simp [hxy, Nat.not_le.mpr this]
  · intro x y
    unfold indexOf
    by_cases hxy : (mkHilbertPlot data w0 h0 t).width ≤ x ∨
        (mkHilbertPlot data w0 h0 t).height ≤ y <;>
      simp [hxy]
  · intro i hi
    unfold valueAt
    rw [hlen, if_neg (Nat.not_le.mpr hi)]
  · intro i hi
    unfold valueNormalizedAt
    rw [hlen, if_neg (Nat.not_le.mpr hi)]

/-- Witness for C8: a `2 × 1` plot over data `[3, 7]`; index 5 is out of
range, index 0 is in range. -/
theorem C8_access_out_of_range_iff_witness :
    (valueAt (mkHilbertPlot [3, 7] 2 1 .H0) 5 = .error .indexOutOfRange ↔
      (mkHilbertPlot [3, 7] 2 1 .H0).width *
        (mkHilbertPlot [3, 7] 2 1 .H0).height ≤ 5) ∧
    (0 < (mkHilbertPlot [3, 7] 2 1 .H0).width *
        (mkHilbertPlot [3, 7] 2 1 .H0).height ∧
      valueAt (mkHilbertPlot [3, 7] 2 1 .H0) 0 =
        .ok ((mkHilbertPlot [3, 7] 2 1 .H0).m_data.getD 0 0)) :=
  ⟨(C8_access_out_of_range_iff [3, 7] 2 1 .H0).1 5,
   have hpos : 0 < (mkHilbertPlot [3, 7] 2 1 .H0).width *
       (mkHilbertPlot [3, 7] 2 1 .H0).height := by
     rw [mkHilbertPlot, HilbertPlot.width, HilbertPlot.height]
     simp [mkHilbertCurve_width, mkHilbertCurve_height]
   ⟨hpos, (C8_access_out_of_range_iff [3, 7] 2 1 .H0).2.2.2.2.2.1 0 hpos⟩⟩

/-- C10: `replaceData` with a same-length sequence stores the incoming
data rescaled by the incoming minimum/maximum, `(v - min)/(max - min)`
(the code multiplies by the unguarded `1/(max - min)`), and does not touch
the cached `m_min`/`m_max`. -/
theorem C10_replaceData_normalizes (pl : HilbertPlot) (d : List ℚ)
    (hlen : pl.m_data.length = d.length) (_hmm : listMin d ≠ listMax d) :
    replaceData pl d =
      .ok { pl with
            m_data := d.map (fun v => (v - listMin d) / (listMax d - listMin d)) } := by
  unfold replaceData
  rw [if_neg (by omega)]
  simp only [mul_one_div]

/-- Witness for C10: a `2 × 1` plot over `[1, 2]`, replaced by `[5, 9]`. -/
theorem C10_replaceData_normalizes_witness :
    (mkHilbertPlot [1, 2] 2 1 .H0).m_data.length = ([5, 9] : List ℚ).length ∧
    listMin [5, 9] ≠ listMax [5, 9] ∧
    replaceData (mkHilbertPlot [1, 2] 2 1 .H0) [5, 9] =
      .ok { mkHilbertPlot [1, 2] 2 1 .H0 with
            m_data := ([5, 9] : List ℚ).map
              (fun v => (v - listMin [5, 9]) / (listMax [5, 9] - listMin [5, 9])) } :=
  have hmin : listMin [5, 9] ≠ listMax [5, 9] := by
    simp [listMin, listMax, min_def, max_def]
    norm_num
  ⟨by rfl, hmin,
   C10_replaceData_normalizes (mkHilbertPlot [1, 2] 2 1 .H0) [5, 9] (by rfl) hmin⟩

lemma hc210 : hcBuild .H0 2 1 (0, 0) .A = [(0, 0), (1, 0)] := by decide

lemma bd_test :
    buildDifference 2 1 [(0, 0), (1, 0)] = ([⟨0, 0, 1, 0⟩, ⟨1, 0, 1, 1⟩], 1) := by
  simp [buildDifference, cellScore, welfordStep, List.insertionSort, List.orderedInsert,
    rasterLE, indexLE, hpDefault, List.enum, List.enumFrom, List.range_succ]

lemma plot12_curve_points :
    (mkHilbertPlot [1, 2] 2 1 .H0).curve.points =
      [⟨0, 0, 1, 0⟩, ⟨1, 0, 1, 1⟩] := by
  show (mkHilbertCurve 2 1 .H0 (0, 0) .A true).points = _
  rw [mkHilbertCurve, if_pos rfl, hc210, bd_test]
  simp [reflectYHP]

lemma plot12_mean :
    (mkHilbertPlot [1, 2] 2 1 .H0).curve.meanDifference = 1 := by
  show (mkHilbertCurve 2 1 .H0 (0, 0) .A true).meanDifference = _
  rw [mkHilbertCurve, if_pos rfl, hc210, bd_test]

lemma plot12_data : (mkHilbertPlot [1, 2] 2 1 .H0).m_data = [1, 2] := rfl

lemma plot12_min : (mkHilbertPlot [1, 2] 2 1 .H0).m_min = 1 := by
  show (if 0 < ([1, 2] : List ℚ).length then listMin [1, 2] else 0) = 1
  norm_num [listMin, min_def]

lemma plot12_max : (mkHilbertPlot [1, 2] 2 1 .H0).m_max = 2 := by
  show (if 0 < ([1, 2] : List ℚ).length then listMax [1, 2] else 0) = 2
  norm_num [listMax, max_def]

lemma plot12_image :
    generateImage (mkHilbertPlot [1, 2] 2 1 .H0) 0 = [[1], [2]] := by
  rw [generateImage]
  simp only [plot12_curve_points, plot12_data, plot12_min, plot12_max,
    plotToCurve, HilbertPlot.width, HilbertPlot.height]
  norm_num [mkHilbertPlot, mkHilbertCurve, hc210, bd_test, reflectYHP,
    List.range_succ]

/-- C6: FAILS for `threshold ≤ 0`.  On the plot over data `[1, 2]` with
dimensions `2 × 1` and threshold `0`, `generateImage` returns `[[1], [2]]`:
the entry at `(x, y) = (1, 0)` is `2`, while the min/max-normalized value
the claim prescribes at that cell — as the code itself computes it in
`valueNormalizedAt` — is `1`.  The `threshold ≤ 0` branch multiplies the
raw stored value by `1 / (max - min)` without first subtracting `m_min`. -/
theorem C6_generateImage_skips_min_shift :
    generateImage (mkHilbertPlot [1, 2] 2 1 .H0) 0 = [[1], [2]] ∧
    valueNormalizedAtXY (mkHilbertPlot [1, 2] 2 1 .H0) 1 0 = .ok 1 ∧
    ((2 : ℚ) ≠ 1) := by
  refine ⟨plot12_image, ?_, by norm_num⟩
  rw [valueNormalizedAtXY]
  have hw : (mkHilbertPlot [1, 2] 2 1 .H0).width = 2 := rfl
  have hh : (mkHilbertPlot [1, 2] 2 1 .H0).height = 1 := rfl
  rw [hw, hh, if_neg (by norm_num)]
  have hp : plotToCurve (mkHilbertPlot [1, 2] 2 1 .H0) 1 0 = 1 := by
    rw [plotToCurve, plot12_curve_points]
    norm_num
  rw [hp, valueNormalizedAt, plot12_data, plot12_min, plot12_max]
  norm_num

lemma foldl_max_init_le (l : List ℚ) : ∀ a : ℚ, a ≤ l.foldl max a := by
  induction l with
  | nil => intro a; simp
  | cons x xs ih =>
    intro a
    exact le_trans (le_max_left a x) (ih (max a x))

lemma foldl_max_mem_le (l : List ℚ) : ∀ (a r : ℚ), r ∈ l → r ≤ l.foldl max a := by
  induction l with
  | nil => intro a r hr; simp at hr
  | cons x xs ih =>
    intro a r hr
    rcases List.mem_cons.mp hr with h | h
    · subst h
      exact le_trans (le_max_right a r) (foldl_max_init_le xs (max a r))
    · exact ih (max a x) r h

lemma foldl_max_lt (l : List ℚ) : ∀ a c : ℚ, a < c → (∀ r ∈ l, r < c) →
    l.foldl max a < c := by
  induction l with
  | nil => intro a c ha _; simpa using ha
  | cons x xs ih =>
    intro a c ha hl
    exact ih (max a x) c (max_lt ha (hl x (by simp)))
      (fun r hr => hl r (by simp [hr]))

lemma foldl_max_le (l : List ℚ) : ∀ a c : ℚ, a ≤ c → (∀ r ∈ l, r ≤ c) →
    l.foldl max a ≤ c := by
  induction l with
  | nil => intro a c ha _; simpa using ha
  | cons x xs ih =>
    intro a c ha hl
    exact ih (max a x) c (max_le ha (hl x (by simp)))
      (fun r hr => hl r (by simp [hr]))

lemma foldl_max_swap (l : List ℚ) : ∀ a b : ℚ,
    l.foldl max (max a b) = max a (l.foldl max b) := by
  induction l with
  | nil => intro a b; simp
  | cons x xs ih =>
    intro a b
    rw [List.foldl_cons, max_assoc, ih, List.foldl_cons]

lemma listMax_eq_foldl_dblMin (rest : List ℚ) (hge : ∃ r ∈ rest, dblMin ≤ r) :
    rest.foldl max dblMin = listMax rest := by
  obtain ⟨r, hr, hdr⟩ := hge
  cases rest with
  | nil => simp at hr
  | cons x xs =>
    rw [List.foldl_cons, foldl_max_swap, listMax]
    have hr2 : r ≤ xs.foldl max x := by
      rcases List.mem_cons.mp hr with h | h
      · subst h; exact foldl_max_init_le xs r
      · exact foldl_max_mem_le xs x r h
    exact max_eq_right (le_trans hdr hr2)

lemma map_id_of_mem {f : ℚ → ℚ} : ∀ (l : List ℚ), (∀ r ∈ l, f r = r) → l.map f = l := by
  intro l
  induction l with
  | nil => intro _; rfl
  | cons x xs ih =>
    intro h
    rw [List.map_cons, h x (by simp), ih (fun r hr => h r (by simp [hr]))]

lemma fftScanAux (v0 : ℚ) : ∀ (rest : List ℚ) (m2 mn : ℚ),
    (∀ r ∈ rest, r < v0) →
    List.foldl
      (fun acc v =>
        let mx := if acc.1 < v then v else acc.1
        let mn := if v < acc.2.2 then v else acc.2.2
        let mx2 := if acc.2.1 < v ∧ v < mx then v else acc.2.1
        (mx, mx2, mn))
      ((v0, m2, mn) : ℚ × ℚ × ℚ) rest = (v0, rest.foldl max m2, rest.foldl min mn) := by
  intro rest
  induction rest with
  | nil => intro m2 mn _; rfl
  | cons x xs ih =>
    intro m2 mn hl
    have hx : x < v0 := hl x (by simp)
    rw [List.foldl_cons, List.foldl_cons]
    have h2 : (if m2 < x ∧ x < v0 then x else m2) = max m2 x := by
      by_cases hc : m2 < x
      · rw [if_pos ⟨hc, hx⟩, max_eq_right hc.le]
      · rw [if_neg (fun hand => hc hand.1), max_eq_left (not_lt.mp hc)]
    have h3 : (if x < mn then x else mn) = min mn x := by
      by_cases hc : x < mn
      · rw [if_pos hc, min_eq_right hc.le]
      · rw [if_neg hc, min_eq_left (not_lt.mp hc)]
    simp only [if_neg (not_lt.mpr hx.le), h2, h3]
    exact ih (max m2 x) (min mn x) (fun r hr => hl r (by simp [hr]))

lemma fftScan_dominant (v0 : ℚ) (rest : List ℚ) (h0 : dblMin < v0)
    (hlt : ∀ r ∈ rest, r < v0) :
    (fftScan (v0 :: rest)).1 = v0 ∧
    (fftScan (v0 :: rest)).2.1 = rest.foldl max dblMin := by
  rw [fftScan, List.foldl_cons]
  simp only [if_pos h0, lt_irrefl, and_false, if_false]
  rw [fftScanAux v0 rest dblMin _ hlt]
  exact ⟨rfl, rfl⟩

lemma secondLargest_cons_dominant (v0 : ℚ) (rest : List ℚ) (hne : rest ≠ [])
    (hlt : ∀ r ∈ rest, r < v0) :
    secondLargest (v0 :: rest) = listMax rest := by
  have hmax : listMax (v0 :: rest) = v0 := by
    rw [listMax]
    exact le_antisymm
      (foldl_max_le rest v0 v0 le_rfl (fun r hr => (hlt r hr).le))
      (foldl_max_init_le rest v0)
  rw [secondLargest, hmax, List.erase_cons_head]

/-- Counterexample to C7 as stated: on the ascending spectrum `[1, 4, 9]`
(the squared magnitudes of the bins `1, 2i, 3`), the scan's `max2` stays at
its `DBL_MIN` seed — when a new maximum is found, the guard `v < max` tests
the already-updated `max` and fails — so the largest bin `9` is clamped to
`DBL_MIN`, not to the second-largest value `4`. -/
theorem C7_claim_fails_on_ascending_spectrum :
    sqMag [(1, 0), (0, 2), (3, 0)] = [1, 4, 9] ∧
    secondLargest [1, 4, 9] = 4 ∧
    (fftScan [1, 4, 9]).2.1 = dblMin ∧
    fftClampLinear [1, 4, 9] = [1, 4, dblMin] ∧
    dblMin ≠ 4 := by
  refine ⟨by norm_num [sqMag], ?_, ?_, ?_, by norm_num [dblMin]⟩
  · rw [secondLargest]
    have hmax : listMax [1, 4, 9] = 9 := by norm_num [listMax, max_def]
    rw [hmax]
    have herase : ([1, 4, 9] : List ℚ).erase 9 = [1, 4] := by
      norm_num [List.erase_cons]
    rw [herase]
    norm_num [listMax, max_def]
  · rw [fftScan]
    norm_num [dblMin, dblMax]
  · rw [fftClampLinear, fftScan]
    norm_num [dblMin, dblMax]

/-- C7 amended: for a DC-dominant spectrum — first bin strictly above
`DBL_MIN` and strictly above every later bin, with at least one later bin at
or above `DBL_MIN` — the scan's `max2` does equal the second-largest bin
value, and both the linear and the logarithmic mode clamp exactly the
largest bin to it, leaving every other bin unchanged. -/
theorem C7_fft_clamps_to_second_largest_dc (v0 : ℚ) (rest : List ℚ)
    (h0 : dblMin < v0) (hlt : ∀ r ∈ rest, r < v0)
    (hge : ∃ r ∈ rest, dblMin ≤ r) :
    (fftScan (v0 :: rest)).2.1 = secondLargest (v0 :: rest) ∧
    fftClampLinear (v0 :: rest) = secondLargest (v0 :: rest) :: rest ∧
    fftClampLog (v0 :: rest) = secondLargest (v0 :: rest) :: rest := by
  have hne : rest ≠ [] := by
    rintro rfl
    obtain ⟨r, hr, _⟩ := hge
    simp at hr
  have hscan := fftScan_dominant v0 rest h0 hlt
  have hfold := listMax_eq_foldl_dblMin rest hge
  have hsl := secondLargest_cons_dominant v0 rest hne hlt
  have hm2 : (fftScan (v0 :: rest)).2.1 = secondLargest (v0 :: rest) := by
    rw [hscan.2, hfold, hsl]
  refine ⟨hm2, ?_, ?_⟩
  · rw [fftClampLinear]
    simp only [hscan.1, hm2, List.map_cons]
    rw [if_pos le_rfl,
      map_id_of_mem rest (fun r hr => if_neg (not_le.mpr (hlt r hr)))]
  · rw [fftClampLog]
    simp only [hscan.2, List.map_cons]
    have hstrict : rest.foldl max dblMin < v0 := foldl_max_lt rest dblMin v0 h0 hlt
    rw [if_pos hstrict,
      map_id_of_mem rest
        (fun r hr => if_neg (not_lt.mpr (foldl_max_mem_le rest dblMin r hr))),
      hfold, hsl]

/-- Witness for the amended C7 at the spectrum `9 :: [1, 4]`. -/
theorem C7_fft_clamps_to_second_largest_dc_witness :
    (dblMin < 9 ∧ (∀ r ∈ ([1, 4] : List ℚ), r < 9) ∧
      (∃ r ∈ ([1, 4] : List ℚ), dblMin ≤ r)) ∧
    ((fftScan (9 :: [1, 4])).2.1 = secondLargest (9 :: [1, 4]) ∧
     fftClampLinear (9 :: [1, 4]) = secondLargest (9 :: [1, 4]) :: [1, 4] ∧
     fftClampLog (9 :: [1, 4]) = secondLargest (9 :: [1, 4]) :: [1, 4]) :=
  have h0 : dblMin < 9 := by norm_num [dblMin]
  have hlt : ∀ r ∈ ([1, 4] : List ℚ), r < 9 := by
    intro r hr
    fin_cases hr <;> norm_num
  have hge : ∃ r ∈ ([1, 4] : List ℚ), dblMin ≤ r :=
    ⟨1, by norm_num, by norm_num [dblMin]⟩
  ⟨⟨h0, hlt, hge⟩, C7_fft_clamps_to_second_largest_dc 9 [1, 4] h0 hlt hge⟩

lemma rasterList_length (w h : Nat) : (rasterList w h).length = w * h := by
  simp [rasterList]

lemma rasterList_getElem (w h k : Nat) (hk : k < (rasterList w h).length) :
    (rasterList w h)[k] = (((k % w : Nat) : ℤ), ((k / w : Nat) : ℤ)) := by
  simp [rasterList]

lemma rasterList_nodup (w h : Nat) : (rasterList w h).Nodup := by
  rw [rasterList]
  refine List.Nodup.map_on ?_ (List.nodup_range (w * h))
  intro a ha b hb hab
  rw [List.mem_range] at ha hb
  rw [Prod.ext_iff] at hab
  dsimp only at hab
  have hm : a % w = b % w := by exact_mod_cast hab.1
  have hd : a / w = b / w := by exact_mod_cast hab.2
  have ha2 := Nat.div_add_mod a w
  have hb2 := Nat.div_add_mod b w
  rw [hm, hd] at ha2
  omega

lemma rasterList_mem (w h : Nat) (p : Pt) :
    p ∈ rasterList w h ↔ InGrid w h (0, 0) p := by
  rw [rasterList, List.mem_map]
  unfold InGrid
  constructor
  · rintro ⟨k, hk, rfl⟩
    rw [List.mem_range] at hk
    have hw : 0 < w := by
      rcases Nat.eq_zero_or_pos w with h0 | h0
      · subst h0; simp at hk
      · exact h0
    have h1 : k % w < w := Nat.mod_lt k hw
    have h2 : k / w < h := Nat.div_lt_of_lt_mul (by omega)
    dsimp only
    refine ⟨Int.natCast_nonneg _, by push_cast; omega,
      Int.natCast_nonneg _, by push_cast; omega⟩
  · intro hp
    simp only at hp
    refine ⟨p.2.toNat * w + p.1.toNat, ?_, ?_⟩
    · rw [List.mem_range]
      have : p.2.toNat < h := by omega
      have : p.1.toNat < w := by omega
      calc p.2.toNat * w + p.1.toNat < (p.2.toNat + 1) * w := by
            rw [Nat.succ_mul]; omega
      _ ≤ h * w := Nat.mul_le_mul_right w (by omega)
      _ = w * h := Nat.mul_comm h w
    · have hx : p.1.toNat < w := by omega
      have : (p.2.toNat * w + p.1.toNat) % w = p.1.toNat := by
        rw [Nat.add_comm, Nat.add_mul_mod_self_right]
        exact Nat.mod_eq_of_lt hx
      have hd : (p.2.toNat * w + p.1.toNat) / w = p.2.toNat := by
        rw [Nat.add_comm, Nat.add_mul_div_right _ _ (by omega : 0 < w),
          Nat.div_eq_of_lt hx]
        omega
      rw [Prod.ext_iff]
      simp only [this, hd]
      omega

lemma rasterList_perm_gridList (w h : Nat) :
    (rasterList w h).Perm (gridList w h) := by
  apply List.perm_of_nodup_nodup_toFinset_eq (rasterList_nodup w h)
    (gridList_nodup w h)
  apply Finset.eq_of_subset_of_card_le
  · intro p hp
    rw [List.mem_toFinset] at hp ⊢
    rw [gridList_mem]
    exact (rasterList_mem w h p).mp hp
  · rw [List.toFinset_card_of_nodup (gridList_nodup w h),
      List.toFinset_card_of_nodup (rasterList_nodup w h),
      gridList_length, rasterList_length]

lemma nodup_map_pairwise {f : HP → ℤ} :
    ∀ {l : List HP}, (l.map f).Nodup → l.Pairwise (fun p q => f p ≠ f q) := by
  intro l
  induction l with
  | nil => intro _; exact List.Pairwise.nil
  | cons x xs ih =>
    intro hn
    rw [List.map_cons, List.nodup_cons] at hn
    refine List.Pairwise.cons ?_ (ih hn.2)
    intro q hq heq
    exact hn.1 (heq ▸ List.mem_map_of_mem f hq)

lemma eq_of_sorted_key (key : HP → ℤ) (l1 l2 : List HP)
    (hperm : l1.Perm l2)
    (h1 : l1.Pairwise (fun p q => key p ≤ key q))
    (hnd : (l2.map key).Nodup)
    (h2 : l2.Pairwise (fun p q => key p < key q)) : l1 = l2 := by
  haveI : IsAntisymm HP (fun p q => key p < key q) :=
    ⟨fun a b hab hba => absurd (lt_trans hab hba) (lt_irrefl _)⟩
  have hnd1 : (l1.map key).Nodup := ((hperm.map key).nodup_iff).mpr hnd
  have hne : l1.Pairwise (fun p q => key p ≠ key q) := nodup_map_pairwise hnd1
  have h1s : l1.Pairwise (fun p q => key p < key q) := by
    refine (h1.and hne).imp ?_
    intro a b hab
    exact lt_of_le_of_ne hab.1 hab.2
  exact List.eq_of_perm_of_sorted hperm h1s h2

lemma enumHP_eq_map (l : List Pt) (hnd : l.Nodup) :
    (l.enum.map fun pr => HP.mk pr.2.1 pr.2.2 0 pr.1) = l.map (hpOfPos l) := by
  apply List.ext_getElem
  · simp
  · intro k h1 h2
    simp only [List.getElem_map, List.getElem_enum, hpOfPos, posIdx]
    simp only [HP.mk.injEq, true_and]
    exact (List.indexOf_getElem hnd k (by simpa using h2)).symm

lemma enumHP_scored_eq_map (w h : Nat) (l : List Pt) (hnd : l.Nodup) :
    (l.enum.map fun pr => HP.mk pr.2.1 pr.2.2 (specScore l w h pr.2) pr.1) =
      l.map (hpScored l w h) := by
  apply List.ext_getElem
  · simp
  · intro k h1 h2
    simp only [List.getElem_map, List.getElem_enum, hpScored, posIdx]
    simp only [HP.mk.injEq, true_and]
    exact (List.indexOf_getElem hnd k (by simpa using h2)).symm

lemma rasterKey_hpOfPos (w : Nat) (l : List Pt) (k : Nat) :
    rasterKey w (hpOfPos l (((k % w : Nat) : ℤ), ((k / w : Nat) : ℤ))) = (k : ℤ) := by
  unfold rasterKey hpOfPos
  dsimp only
  have h := Nat.div_add_mod k w
  rw [Nat.mul_comm] at h
  exact_mod_cast congrArg (fun n : Nat => (n : ℤ)) h

lemma rasterKey_mono {w : Nat} {p q : HP} (hpx : 0 ≤ p.x ∧ p.x < w)
    (hqx : 0 ≤ q.x ∧ q.x < w) (h : rasterLE p q) :
    rasterKey w p ≤ rasterKey w q := by
  unfold rasterLE at h
  unfold rasterKey
  rcases h with hy | ⟨hy, hx⟩
  · have h1 : (p.y + 1) * (w : ℤ) ≤ q.y * w :=
      mul_le_mul_of_nonneg_right (by omega) (Int.natCast_nonneg w)
    have h2 : (p.y + 1) * (w : ℤ) = p.y * w + w := by ring
    linarith [hpx.2, hqx.1]
  · rw [hy]
    linarith [hx]

lemma insertionSort_raster_eq (w h : Nat) (l : List Pt)
    (hl : l.Perm (gridList w h)) :
    ((l.enum.map fun pr => HP.mk pr.2.1 pr.2.2 0 pr.1).insertionSort rasterLE) =
      (rasterList w h).map (hpOfPos l) := by
  have hnd : l.Nodup := hl.nodup_iff.mpr (gridList_nodup w h)
  have hperm : ((l.enum.map fun pr =>
      HP.mk pr.2.1 pr.2.2 0 pr.1).insertionSort rasterLE).Perm
      ((rasterList w h).map (hpOfPos l)) := by
    refine (List.perm_insertionSort rasterLE _).trans ?_
    rw [enumHP_eq_map l hnd]
    exact (hl.map _).trans (((rasterList_perm_gridList w h).map _).symm)
  have hkeys : ((rasterList w h).map (hpOfPos l)).map (rasterKey w) =
      (List.range (w * h)).map (fun k : Nat => (k : ℤ)) := by
    rw [rasterList, List.map_map, List.map_map]
    apply List.map_congr_left
    intro k hk
    exact rasterKey_hpOfPos w l k
  apply eq_of_sorted_key (rasterKey w) _ _ hperm
  · have hs := List.sorted_insertionSort rasterLE
      (l.enum.map fun pr => HP.mk pr.2.1 pr.2.2 0 pr.1)
    have hbound : ∀ p ∈ ((l.enum.map fun pr =>
        HP.mk pr.2.1 pr.2.2 0 pr.1).insertionSort rasterLE),
        0 ≤ p.x ∧ p.x < w := by
      intro p hp
      have hp2 : p ∈ (rasterList w h).map (hpOfPos l) := hperm.mem_iff.mp hp
      obtain ⟨q, hq, rfl⟩ := List.mem_map.mp hp2
      have hg := (rasterList_mem w h q).mp hq
      unfold InGrid at hg
      unfold hpOfPos
      dsimp only at hg ⊢
      omega
    refine hs.imp_of_mem ?_
    intro a b ha hb hab
    exact rasterKey_mono (hbound a ha) (hbound b hb) hab
  · rw [hkeys]
    exact (List.nodup_range (w * h)).map Nat.cast_injective
  · rw [rasterList, List.map_map, List.pairwise_map]
    refine (List.sorted_lt_range (w * h)).imp ?_
    intro a b hab
    have h1 := rasterKey_hpOfPos w l a
    have h2 := rasterKey_hpOfPos w l b
    simp only [Function.comp] at h1 h2 ⊢
    rw [h1, h2]
    exact_mod_cast hab

lemma filter_map_sum (f : Pt → ℚ) (p : Pt → Bool) :
    ∀ L : List Pt, ((L.filter p).map f).sum = (L.map fun d => if p d then f d else 0).sum := by
  intro L
  induction L with
  | nil => rfl
  | cons x xs ih =>
    by_cases hx : p x
    · rw [List.filter_cons_of_pos hx, List.map_cons, List.sum_cons,
        List.map_cons, List.sum_cons, if_pos hx, ih]
    · rw [List.filter_cons_of_neg (by simpa using hx), List.map_cons,
        List.sum_cons, if_neg hx, ih, zero_add]

lemma filter_length_sum (p : Pt → Bool) :
    ∀ L : List Pt, (((L.filter p).length : Nat) : ℚ) =
      (L.map fun d => if p d then (1 : ℚ) else 0).sum := by
  intro L
  induction L with
  | nil => rfl
  | cons x xs ih =>
    by_cases hx : p x
    · rw [List.filter_cons_of_pos hx, List.map_cons, List.sum_cons, if_pos hx,
        List.length_cons, ← ih]
      push_cast
      ring
    · rw [List.filter_cons_of_neg (by simpa using hx), List.map_cons,
        List.sum_cons, if_neg hx, ih, zero_add]

lemma cellScore_eq_specScore (S : List HP) (l : List Pt) (w h i j : Nat)
    (hi : i < w) (hj : j < h)
    (hS : ∀ a b : Nat, a < w → b < h →
      ((S.getD (b * w + a) hpDefault).index : ℚ) = (posIdx l ((a : ℤ), (b : ℤ)) : ℚ)) :
    cellScore S w h i j = specScore l w h ((i : ℤ), (j : ℤ)) := by
  rw [cellScore, specScore]
  simp only [neighborOffsets, List.map_cons, List.map_nil]
  rw [filter_map_sum, filter_length_sum]
  simp only [List.map_cons, List.map_nil, List.sum_cons, List.sum_nil,
    decide_eq_true_eq, add_zero]
  have e1 : InGrid w h (0, 0) ((i : ℤ) + 1, (j : ℤ)) ↔ i < w - 1 := by
    unfold InGrid; dsimp only; omega
  have e2 : InGrid w h (0, 0) ((i : ℤ) + -1, (j : ℤ)) ↔ 0 < i := by
    unfold InGrid; dsimp only; omega
  have e3 : InGrid w h (0, 0) ((i : ℤ), (j : ℤ) + 1) ↔ j < h - 1 := by
    unfold InGrid; dsimp only; omega
  have e4 : InGrid w h (0, 0) ((i : ℤ), (j : ℤ) + -1) ↔ 0 < j := by
    unfold InGrid; dsimp only; omega
  have e5 : InGrid w h (0, 0) ((i : ℤ) + 1, (j : ℤ) + 1) ↔ (i < w - 1 ∧ j < h - 1) := by
    unfold InGrid; dsimp only; omega
  have e6 : InGrid w h (0, 0) ((i : ℤ) + -1, (j : ℤ) + 1) ↔ (0 < i ∧ j < h - 1) := by
    unfold InGrid; dsimp only; omega
  have e7 : InGrid w h (0, 0) ((i : ℤ) + 1, (j : ℤ) + -1) ↔ (i < w - 1 ∧ 0 < j) := by
    unfold InGrid; dsimp only; omega
  have e8 : InGrid w h (0, 0) ((i : ℤ) + -1, (j : ℤ) + -1) ↔ (0 < i ∧ 0 < j) := by
    unfold InGrid; dsimp only; omega
  simp only [e1, e2, e3, e4, e5, e6, e7, e8]
  have f0 : ((S.getD (j * w + i) hpDefault).index : ℚ) =
      (posIdx l ((i : ℤ), (j : ℤ)) : ℚ) := hS i j hi hj
  have fR : i < w - 1 → ((S.getD (j * w + (i + 1)) hpDefault).index : ℚ) =
      (posIdx l ((i : ℤ) + 1, (j : ℤ)) : ℚ) := by
    intro hc
    have hq := hS (i + 1) j (by omega) hj
    push_cast at hq
    exact hq
  have fL : 0 < i → ((S.getD (j * w + (i - 1)) hpDefault).index : ℚ) =
      (posIdx l ((i : ℤ) + -1, (j : ℤ)) : ℚ) := by
    intro hc
    have hq := hS (i - 1) j (by omega) hj
    have hc2 : ((i - 1 : ℕ) : ℤ) = (i : ℤ) + -1 := by omega
    rw [hc2] at hq
    exact hq
  have fU : j < h - 1 → ((S.getD ((j + 1) * w + i) hpDefault).index : ℚ) =
      (posIdx l ((i : ℤ), (j : ℤ) + 1) : ℚ) := by
    intro hc
    have hq := hS i (j + 1) hi (by omega)
    push_cast at hq
    exact hq
  have fD : 0 < j → ((S.getD ((j - 1) * w + i) hpDefault).index : ℚ) =
      (posIdx l ((i : ℤ), (j : ℤ) + -1) : ℚ) := by
    intro hc
    have hq := hS i (j - 1) hi (by omega)
    have hc2 : ((j - 1 : ℕ) : ℤ) = (j : ℤ) + -1 := by omega
    rw [hc2] at hq
    exact hq
  have fRU : i < w - 1 ∧ j < h - 1 →
      ((S.getD ((j + 1) * w + (i + 1)) hpDefault).index : ℚ) =
      (posIdx l ((i : ℤ) + 1, (j : ℤ) + 1) : ℚ) := by
    intro hc
    have hq := hS (i + 1) (j + 1) (by omega) (by omega)
    push_cast at hq
    exact hq
  have fLU : 0 < i ∧ j < h - 1 →
      ((S.getD ((j + 1) * w + (i - 1)) hpDefault).index : ℚ) =
      (posIdx l ((i : ℤ) + -1, (j : ℤ) + 1) : ℚ) := by
    intro hc
    have hq := hS (i - 1) (j + 1) (by omega) (by omega)
    have hc2 : ((i - 1 : ℕ) : ℤ) = (i : ℤ) + -1 := by omega
    rw [hc2] at hq
    push_cast at hq
    exact hq
  have fRD : i < w - 1 ∧ 0 < j →
      ((S.getD ((j - 1) * w + (i + 1)) hpDefault).index : ℚ) =
      (posIdx l ((i : ℤ) + 1, (j : ℤ) + -1) : ℚ) := by
    intro hc
    have hq := hS (i + 1) (j - 1) (by omega) (by omega)
    have hc2 : ((j - 1 : ℕ) : ℤ) = (j : ℤ) + -1 := by omega
    rw [hc2] at hq
    push_cast at hq
    exact hq
  have fLD : 0 < i ∧ 0 < j →
      ((S.getD ((j - 1) * w + (i - 1)) hpDefault).index : ℚ) =
      (posIdx l ((i : ℤ) + -1, (j : ℤ) + -1) : ℚ) := by
    intro hc
    have hc2 : ((i - 1 : ℕ) : ℤ) = (i : ℤ) + -1 := by omega
    have hc3 : ((j - 1 : ℕ) : ℤ) = (j : ℤ) + -1 := by omega
    have hq := hS (i - 1) (j - 1) (by omega) (by omega)
    rw [hc2, hc3] at hq
    exact hq
  have T1 : (if i < w - 1 then
        |(posIdx l ((i : ℤ), (j : ℤ)) : ℚ) - (posIdx l ((i : ℤ) + 1, (j : ℤ)) : ℚ)|
      else 0) = (if i < w - 1 then
        |((S.getD (j * w + i) hpDefault).index : ℚ) -
          ((S.getD (j * w + (i + 1)) hpDefault).index : ℚ)| else 0) := by
    by_cases hc : i < w - 1
    · rw [if_pos hc, if_pos hc, f0, fR hc]
    · rw [if_neg hc, if_neg hc]
  have T2 : (if 0 < i then
        |(posIdx l ((i : ℤ), (j : ℤ)) : ℚ) - (posIdx l ((i : ℤ) + -1, (j : ℤ)) : ℚ)|
      else 0) = (if 0 < i then
        |((S.getD (j * w + i) hpDefault).index : ℚ) -
          ((S.getD (j * w + (i - 1)) hpDefault).index : ℚ)| else 0) := by
    by_cases hc : 0 < i
    · rw [if_pos hc, if_pos hc, f0, fL hc]
    · rw [if_neg hc, if_neg hc]
  have T3 : (if j < h - 1 then
        |(posIdx l ((i : ℤ), (j : ℤ)) : ℚ) - (posIdx l ((i : ℤ), (j : ℤ) + 1) : ℚ)|
      else 0) = (if j < h - 1 then
        |((S.getD (j * w + i) hpDefault).index : ℚ) -
          ((S.getD ((j + 1) * w + i) hpDefault).index : ℚ)| else 0) := by
    by_cases hc : j < h - 1
    · rw [if_pos hc, if_pos hc, f0, fU hc]
    · rw [if_neg hc, if_neg hc]
  have T4 : (if 0 < j then
        |(posIdx l ((i : ℤ), (j : ℤ)) : ℚ) - (posIdx l ((i : ℤ), (j : ℤ) + -1) : ℚ)|
      else 0) = (if 0 < j then
        |((S.getD (j * w + i) hpDefault).index : ℚ) -
          ((S.getD ((j - 1) * w + i) hpDefault).index : ℚ)| else 0) := by
    by_cases hc : 0 < j
    · rw [if_pos hc, if_pos hc, f0, fD hc]
    · rw [if_neg hc, if_neg hc]
  have T5 : (if i < w - 1 ∧ j < h - 1 then
        |(posIdx l ((i : ℤ), (j : ℤ)) : ℚ) - (posIdx l ((i : ℤ) + 1, (j : ℤ) + 1) : ℚ)|
      else 0) = (if i < w - 1 ∧ j < h - 1 then
        |((S.getD (j * w + i) hpDefault).index : ℚ) -
          ((S.getD ((j + 1) * w + (i + 1)) hpDefault).index : ℚ)| else 0) := by
    by_cases hc : i < w - 1 ∧ j < h - 1
    · rw [if_pos hc, if_pos hc, f0, fRU hc]
    · rw [if_neg hc, if_neg hc]
  have T6 : (if 0 < i ∧ j < h - 1 then
        |(posIdx l ((i : ℤ), (j : ℤ)) : ℚ) - (posIdx l ((i : ℤ) + -1, (j : ℤ) + 1) : ℚ)|
      else 0) = (if 0 < i ∧ j < h - 1 then
        |((S.getD (j * w + i) hpDefault).index : ℚ) -
          ((S.getD ((j + 1) * w + (i - 1)) hpDefault).index : ℚ)| else 0) := by
    by_cases hc : 0 < i ∧ j < h - 1
    · rw [if_pos hc, if_pos hc, f0, fLU hc]
    · rw [if_neg hc, if_neg hc]
  have T7 : (if i < w - 1 ∧ 0 < j then
        |(posIdx l ((i : ℤ), (j : ℤ)) : ℚ) - (posIdx l ((i : ℤ) + 1, (j : ℤ) + -1) : ℚ)|
      else 0) = (if i < w - 1 ∧ 0 < j then
        |((S.getD (j * w + i) hpDefault).index : ℚ) -
          ((S.getD ((j - 1) * w + (i + 1)) hpDefault).index : ℚ)| else 0) := by
    by_cases hc : i < w - 1 ∧ 0 < j
    · rw [if_pos hc, if_pos hc, f0, fRD hc]
    · rw [if_neg hc, if_neg hc]
  have T8 : (if 0 < i ∧ 0 < j then
        |(posIdx l ((i : ℤ), (j : ℤ)) : ℚ) - (posIdx l ((i : ℤ) + -1, (j : ℤ) + -1) : ℚ)|
      else 0) = (if 0 < i ∧ 0 < j then
        |((S.getD (j * w + i) hpDefault).index : ℚ) -
          ((S.getD ((j - 1) * w + (i - 1)) hpDefault).index : ℚ)| else 0) := by
    by_cases hc : 0 < i ∧ 0 < j
    · rw [if_pos hc, if_pos hc, f0, fLD hc]
    · rw [if_neg hc, if_neg hc]
  rw [T1, T2, T3, T4, T5, T6, T7, T8]
  ring

lemma canonical_hS (w h : Nat) (l : List Pt) : ∀ a b : Nat, a < w → b < h →
    ((((rasterList w h).map (hpOfPos l)).getD (b * w + a) hpDefault).index : ℚ) =
      (posIdx l ((a : ℤ), (b : ℤ)) : ℚ) := by
  intro a b ha hb
  have hk : b * w + a < w * h := by
    calc b * w + a < (b + 1) * w := by rw [Nat.succ_mul]; omega
    _ ≤ h * w := Nat.mul_le_mul_right w (by omega)
    _ = w * h := Nat.mul_comm h w
  have hlen : b * w + a < ((rasterList w h).map (hpOfPos l)).length := by
    rw [List.length_map, rasterList_length]
    exact hk
  rw [List.getD_eq_getElem _ _ hlen]
  simp only [List.getElem_map]
  rw [rasterList_getElem w h _ (by rw [rasterList_length]; exact hk)]
  have hm : (b * w + a) % w = a := by
    rw [Nat.add_comm, Nat.add_mul_mod_self_right]
    exact Nat.mod_eq_of_lt ha
  have hd : (b * w + a) / w = b := by
    rw [Nat.add_comm, Nat.add_mul_div_right _ _ (by omega : 0 < w),
      Nat.div_eq_of_lt ha]
    omega
  rw [hm, hd]
  rfl

lemma scored_eq (w h : Nat) (l : List Pt) :
    (((rasterList w h).map (hpOfPos l)).enum.map fun pr =>
      if pr.1 < h * w then
        { pr.2 with difference :=
            cellScore ((rasterList w h).map (hpOfPos l)) w h (pr.1 % w) (pr.1 / w) }
      else pr.2) = (rasterList w h).map (hpScored l w h) := by
  apply List.ext_getElem
  · simp
  · intro k h1 h2
    have hk : k < w * h := by
      simpa [List.length_map, rasterList_length] using h2
    have hw : 0 < w := by
      rcases Nat.eq_zero_or_pos w with h0 | h0
      · subst h0; simp at hk
      · exact h0
    have hmw : k % w < w := Nat.mod_lt k hw
    have hdw : k / w < h := Nat.div_lt_of_lt_mul (by omega)
    simp only [List.getElem_map, List.getElem_enum]
    rw [if_pos (by rw [Nat.mul_comm h w]; exact hk : k < h * w)]
    rw [rasterList_getElem w h k (by rw [rasterList_length]; exact hk)]
    rw [cellScore_eq_specScore _ l w h (k % w) (k / w) hmw hdw (canonical_hS w h l)]
    rfl

lemma insertionSort_index_eq (w h : Nat) (l : List Pt)
    (hl : l.Perm (gridList w h)) :
    ((rasterList w h).map (hpScored l w h)).insertionSort indexLE =
      l.map (hpScored l w h) := by
  have hnd : l.Nodup := hl.nodup_iff.mpr (gridList_nodup w h)
  have hkeys : (l.map (hpScored l w h)).map (fun p => (p.index : ℤ)) =
      (List.range l.length).map (fun k : Nat => (k : ℤ)) := by
    apply List.ext_getElem
    · simp
    · intro k h1 h2
      have hk : k < l.length := by simpa using h2
      simp only [List.getElem_map, List.getElem_range, hpScored, posIdx]
      rw [List.indexOf_getElem hnd k hk]
  apply eq_of_sorted_key (fun p => (p.index : ℤ))
  · refine (List.perm_insertionSort indexLE _).trans ?_
    exact ((rasterList_perm_gridList w h).map _).trans ((hl.map _).symm)
  · have hs := List.sorted_insertionSort indexLE
      ((rasterList w h).map (hpScored l w h))
    refine hs.imp ?_
    intro a b hab
    unfold indexLE at hab
    exact_mod_cast hab
  · rw [hkeys]
    exact (List.nodup_range _).map Nat.cast_injective
  · rw [List.pairwise_iff_getElem]
    intro a b ha hb hab
    have ha2 : a < l.length := by simpa using ha
    have hb2 : b < l.length := by simpa using hb
    simp only [List.getElem_map, hpScored, posIdx]
    rw [List.indexOf_getElem hnd a ha2, List.indexOf_getElem hnd b hb2]
    exact_mod_cast hab

lemma welford_foldl (vals : List ℚ) : ∀ (m : ℚ) (k : Nat), 0 < k →
    vals.foldl welfordStep (m, k) =
      ((m * k + vals.sum) / (k + vals.length), k + vals.length) := by
  induction vals with
  | nil =>
    intro m k hk
    have hk0 : (k : ℚ) ≠ 0 := Nat.cast_ne_zero.mpr (by omega)
    simp only [List.foldl_nil, List.sum_nil, List.length_nil, add_zero,
      Nat.cast_zero]
    rw [Prod.mk.injEq]
    refine ⟨?_, rfl⟩
    field_simp
  | cons v vs ih =>
    intro m k hk
    rw [List.foldl_cons, welfordStep]
    dsimp only
    rw [ih _ (k + 1) (by omega)]
    rw [Prod.mk.injEq]
    constructor
    · have hk1 : ((k : ℚ) + 1) ≠ 0 := by positivity
      push_cast
      rw [div_eq_div_iff (by positivity) (by positivity)]
      field_simp
      ring
    · rw [List.length_cons]
      omega

lemma welford_mean (vals : List ℚ) :
    (vals.foldl welfordStep (0, 0)).1 = vals.sum / vals.length := by
  cases vals with
  | nil => simp
  | cons v vs =>
    rw [List.foldl_cons]
    have hstep : welfordStep (0, 0) v = (v, 1) := by
      rw [welfordStep]
      dsimp only
      norm_num
    rw [hstep, welford_foldl vs v 1 (by omega)]
    dsimp only
    rw [List.length_cons, List.sum_cons]
    push_cast
    rw [mul_one, add_comm (1 : ℚ)]

lemma buildDifference_mean (w h : Nat) (l : List Pt)
    (hl : l.Perm (gridList w h)) :
    (buildDifference w h l).2 =
      ((gridList w h).map (specScore l w h)).sum / ((w * h : Nat) : ℚ) := by
  rw [buildDifference]
  dsimp only
  rw [insertionSort_raster_eq w h l hl]
  have hmap : ((List.range (h * w)).map fun k =>
      cellScore ((rasterList w h).map (hpOfPos l)) w h (k % w) (k / w)) =
      (List.range (h * w)).map
        (fun k => specScore l w h (((k % w : Nat) : ℤ), ((k / w : Nat) : ℤ))) := by
    apply List.map_congr_left
    intro k hk
    rw [List.mem_range] at hk
    have hw : 0 < w := by
      rcases Nat.eq_zero_or_pos w with h0 | h0
      · subst h0; omega
      · exact h0
    exact cellScore_eq_specScore _ l w h (k % w) (k / w) (Nat.mod_lt k hw)
      (Nat.div_lt_of_lt_mul (by rw [Nat.mul_comm]; exact hk))
      (canonical_hS w h l)
  rw [hmap, welford_mean]
  have hsum : ((List.range (h * w)).map
      (fun k => specScore l w h (((k % w : Nat) : ℤ), ((k / w : Nat) : ℤ)))).sum =
      ((gridList w h).map (specScore l w h)).sum := by
    refine List.Perm.sum_eq ?_
    have h1 : ((List.range (h * w)).map
        (fun k => specScore l w h (((k % w : Nat) : ℤ), ((k / w : Nat) : ℤ)))) =
        (rasterList w h).map (specScore l w h) := by
      rw [rasterList, List.map_map, Nat.mul_comm h w]
      rfl
    rw [h1]
    exact (rasterList_perm_gridList w h).map _
  rw [hsum]
  have hlen : ((List.range (h * w)).map
      (fun k => specScore l w h (((k % w : Nat) : ℤ), ((k / w : Nat) : ℤ)))).length
      = h * w := by
    rw [List.length_map, List.length_range]
  rw [hlen, Nat.mul_comm h w]

/-- C5: on any input list that enumerates the `w × h` grid exactly once,
`BuildDifference` (i) restores the traversal order, assigning each point
its traversal position as `index`, (ii) stores in each point's
`difference` field exactly the spec's discontinuity score — the sum of
absolute traversal-index differences to the grid-adjacent 8-connected
raster neighbours that exist, divided by the number of neighbours present
— and (iii) returns as mean exactly the arithmetic mean of the `w · h`
per-cell scores. -/
theorem C5_buildDifference_matches_spec (w h : Nat) (l : List Pt)
    (hl : l.Perm (gridList w h)) :
    (buildDifference w h l).1 =
      l.enum.map (fun pr => HP.mk pr.2.1 pr.2.2 (specScore l w h pr.2) pr.1) ∧
    (buildDifference w h l).2 =
      ((gridList w h).map (specScore l w h)).sum / ((w * h : Nat) : ℚ) := by
  have hnd : l.Nodup := hl.nodup_iff.mpr (gridList_nodup w h)
  refine ⟨?_, buildDifference_mean w h l hl⟩
  rw [buildDifference]
  dsimp only
  rw [insertionSort_raster_eq w h l hl, scored_eq w h l,
    insertionSort_index_eq w h l hl, enumHP_scored_eq_map w h l hnd]

/-- Witness for C5 on the `2 × 2` traversal `(0,0),(0,1),(1,1),(1,0)`. -/
theorem C5_buildDifference_matches_spec_witness :
    (([(0, 0), (0, 1), (1, 1), (1, 0)] : List Pt)).Perm (gridList 2 2) ∧
    ((buildDifference 2 2 [(0, 0), (0, 1), (1, 1), (1, 0)]).1 =
      ([(0, 0), (0, 1), (1, 1), (1, 0)] : List Pt).enum.map
        (fun pr => HP.mk pr.2.1 pr.2.2
          (specScore [(0, 0), (0, 1), (1, 1), (1, 0)] 2 2 pr.2) pr.1) ∧
     (buildDifference 2 2 [(0, 0), (0, 1), (1, 1), (1, 0)]).2 =
      ((gridList 2 2).map
        (specScore [(0, 0), (0, 1), (1, 1), (1, 0)] 2 2)).sum /
        ((2 * 2 : Nat) : ℚ)) :=
  have hp : (([(0, 0), (0, 1), (1, 1), (1, 0)] : List Pt)).Perm (gridList 2 2) := by
    decide
  ⟨hp, C5_buildDifference_matches_spec 2 2 _ hp⟩

end HilbertPlotCore

